import Mathlib

/-!
Verification of the audiocheck repository (src/streamlit_app.py).

Modelling conventions (shallow embedding):
* Python `str` values are modelled as `List Char`; dictionary keys are Lean
  `String`s.  Python string methods used by the code (`strip`, `split`,
  `lower`) are modelled at the ASCII level (the source only ever produces or
  compares ASCII data there); `isalnum`, whose Unicode awareness is load
  bearing for sanitization, is modelled exactly for all code points below
  U+0100 and under-approximated above (see `pyIsAlnum`).
* Python `float`s are modelled as exact rationals `ℚ`.  The code never relies
  on binary floating point artifacts in the claims considered here; rounding
  performed by `f"{s:...f}"` is modelled by round-half-to-even on `ℚ`.
* `json` files are modelled by a `FileData` value: either a parsed `PyVal`
  (the result of a successful `json.loads`) or `invalid` (any bytes on which
  reading or parsing raises, caught by `load_state`'s `except`).
* The filesystem is a map from paths to contents; `Path.replace` (atomic
  rename) moves the temp entry onto the target.
-/

namespace Audiocheck

/-- Model of a Python/JSON value as produced by `json.loads` and manipulated
by `streamlit_app.py` (events are dicts of str/float/None values). -/
inductive PyVal where
  | none : PyVal
  | bool : Bool → PyVal
  | int : ℤ → PyVal
  | float : ℚ → PyVal
  | str : List Char → PyVal
  | list : List PyVal → PyVal
  | dict : List (String × PyVal) → PyVal

/-- First-match lookup in a dict, i.e. Python `d.get(k)` (Python dicts have
unique keys; first-match agrees with dict semantics there). -/
def dget : List (String × PyVal) → String → Option PyVal
  | [], _ => Option.none
  | (k, v) :: t, key => if k = key then some v else dget t key

/-- Python `d[k] = v`: replace the value at the key, appending when absent. -/
def dset : List (String × PyVal) → String → PyVal → List (String × PyVal)
  | [], key, v => [(key, v)]
  | (k, w) :: t, key, v => if k = key then (k, v) :: t else (k, w) :: dset t key v

/-- Python `d.setdefault(k, v)`: keep an existing entry, else append `(k, v)`
at the end (new dict keys go last). -/
def dsetdefault (d : List (String × PyVal)) (key : String) (v : PyVal) :
    List (String × PyVal) :=
  match dget d key with
  | some _ => d
  | Option.none => d ++ [(key, v)]

@[simp] theorem dget_nil (key : String) : dget [] key = Option.none := rfl

theorem dget_cons (k : String) (v : PyVal) (t : List (String × PyVal)) (key : String) :
    dget ((k, v) :: t) key = if k = key then some v else dget t key := rfl

theorem dget_dset_self (d : List (String × PyVal)) (k : String) (v : PyVal) :
    dget (dset d k v) k = some v := by
  induction d with
  | nil => simp [dset, dget]
  | cons hd t ih =>
    obtain ⟨k2, w⟩ := hd
    by_cases h : k2 = k <;> simp [dset, dget, h, ih]

theorem dget_dset_ne (d : List (String × PyVal)) (k k2 : String) (v : PyVal)
    (h : k ≠ k2) : dget (dset d k v) k2 = dget d k2 := by
  induction d with
  | nil => simp [dset, dget, h]
  | cons hd t ih =>
    obtain ⟨k3, w⟩ := hd
    by_cases h3 : k3 = k
    · subst h3
      simp [dset, dget, h]
    · simp [dset, dget, h3, ih]

theorem dset_eq_self (d : List (String × PyVal)) (k : String) (v : PyVal)
    (h : dget d k = some v) : dset d k v = d := by
  induction d with
  | nil => simp [dget] at h
  | cons hd t ih =>
    obtain ⟨k2, w⟩ := hd
    by_cases h2 : k2 = k
    · subst h2
      simp [dget] at h
      simp [dset, h]
    · simp [dget, h2] at h
      simp [dset, h2, ih h]

theorem dsetdefault_of_mem (d : List (String × PyVal)) (k : String) (v w : PyVal)
    (h : dget d k = some w) : dsetdefault d k v = d := by
  simp [dsetdefault, h]

theorem dget_dsetdefault_self (d : List (String × PyVal)) (k : String) (v : PyVal) :
    (dget (dsetdefault d k v) k).isSome := by
  unfold dsetdefault
  cases h : dget d k with
  | some w => simp [h]
  | none =>
    induction d with
    | nil => simp [dget]
    | cons hd t ih =>
      obtain ⟨k2, w⟩ := hd
      by_cases h2 : k2 = k
      · simp [dget, h2] at h
      · simp [dget, h2] at h ⊢
        exact ih h

theorem dget_dsetdefault_ne (d : List (String × PyVal)) (k k2 : String) (v : PyVal)
    (h : k ≠ k2) : dget (dsetdefault d k v) k2 = dget d k2 := by
  unfold dsetdefault
  cases hg : dget d k with
  | some w => rfl
  | none =>
    induction d with
    | nil => simp [dget, h]
    | cons hd t ih =>
      obtain ⟨k3, w⟩ := hd
      by_cases h3 : k3 = k
      · simp [dget, h3] at hg
      · simp [dget, h3] at hg
        by_cases h4 : k3 = k2
        · simp [dget, h4]
        · simp [dget, h4]
          exact ih hg

/-! ### Character and string primitives (ASCII-level model of Python str) -/

/-- Python `str.strip()` whitespace set, at the ASCII level. -/
def pyIsSpace (c : Char) : Bool :=
  c = ' ' || c = '\t' || c = '\n' || c = '\r' || c = '\x0b' || c = '\x0c'

/-- Python `str.strip()`: drop leading and trailing whitespace. -/
def pyStrip (l : List Char) : List Char :=
  ((l.dropWhile pyIsSpace).reverse.dropWhile pyIsSpace).reverse

theorem dropWhile_eq_self_of_forall {p : Char → Bool} {l : List Char}
    (h : ∀ c ∈ l, p c = false) : l.dropWhile p = l := by
  cases l with
  | nil => rfl
  | cons c t => simp [List.dropWhile, h c (by simp)]

theorem pyStrip_eq_self {l : List Char} (h : ∀ c ∈ l, pyIsSpace c = false) :
    pyStrip l = l := by
  unfold pyStrip
  rw [dropWhile_eq_self_of_forall h, dropWhile_eq_self_of_forall (by
    intro c hc
    exact h c (List.mem_reverse.mp hc)), List.reverse_reverse]

/-- Python `str.split(sep)` for a one-character separator: split at every
occurrence, keeping empty pieces (`"".split(":") == [""]`). -/
def splitChar (sep : Char) : List Char → List (List Char)
  | [] => [[]]
  | c :: t =>
    if c = sep then [] :: splitChar sep t
    else
      match splitChar sep t with
      | [] => [[c]]
      | h :: r => (c :: h) :: r

theorem splitChar_ne_nil (sep : Char) (l : List Char) : splitChar sep l ≠ [] := by
  cases l with
  | nil => simp [splitChar]
  | cons c t =>
    unfold splitChar
    by_cases h : c = sep
    · simp [h]
    · simp only [h, if_false]
      cases splitChar sep t <;> simp

theorem splitChar_of_not_mem {sep : Char} {l : List Char} (h : sep ∉ l) :
    splitChar sep l = [l] := by
  induction l with
  | nil => rfl
  | cons c t ih =>
    have hc : c ≠ sep := fun he => h (by simp [he])
    have ht : sep ∉ t := fun hm => h (by simp [hm])
    simp [splitChar, hc, ih ht]

theorem splitChar_cons (sep c : Char) (t : List Char) :
    splitChar sep (c :: t) =
      if c = sep then [] :: splitChar sep t
      else
        match splitChar sep t with
        | [] => [[c]]
        | h :: r => (c :: h) :: r := rfl

theorem splitChar_append {sep : Char} {a r : List Char} (h : sep ∉ a) :
    splitChar sep (a ++ sep :: r) = a :: splitChar sep r := by
  induction a with
  | nil => simp [splitChar]
  | cons c t ih =>
    have hc : c ≠ sep := fun he => h (by simp [he])
    have ht : sep ∉ t := fun hm => h (by simp [hm])
    rw [List.cons_append, splitChar_cons, if_neg hc, ih ht]

/-! ### Decimal digit strings -/

/-- Value of an ASCII digit character. -/
def digitVal (c : Char) : ℕ := c.toNat - 48

/-- Numeric value of a (most-significant-first) digit string, as read by
Python `int`/`float`. -/
def digitsToNat (l : List Char) : ℕ := l.foldl (fun a c => 10 * a + digitVal c) 0

/-- Decimal digits of `n`, most significant first; `fuel` bounds the digit
count (structural recursion so that concrete values reduce by `rfl`). -/
def natDigitsGo : ℕ → ℕ → List Char
  | 0, _ => []
  | fuel + 1, n =>
    if n < 10 then [Char.ofNat (48 + n)]
    else natDigitsGo fuel (n / 10) ++ [Char.ofNat (48 + n % 10)]

/-- Decimal rendering of a natural number (Python `"%d" % n`). -/
def natDigits (n : ℕ) : List Char := natDigitsGo (n + 1) n

/-- Left-pad with ASCII zeros to width `w` (Python zero-padding format). -/
def padZero (w : ℕ) (l : List Char) : List Char :=
  List.replicate (w - l.length) '0' ++ l

theorem digitsToNat_aux (l : List Char) (a : ℕ) :
    l.foldl (fun a c => 10 * a + digitVal c) a =
      a * 10 ^ l.length + digitsToNat l := by
  induction l generalizing a with
  | nil => simp [digitsToNat]
  | cons c t ih =>
    simp only [List.foldl_cons, List.length_cons, digitsToNat]
    rw [ih (10 * a + digitVal c), ih (10 * 0 + digitVal c)]
    ring

theorem digitsToNat_append (a b : List Char) :
    digitsToNat (a ++ b) = digitsToNat a * 10 ^ b.length + digitsToNat b := by
  unfold digitsToNat
  rw [List.foldl_append, digitsToNat_aux]
  rfl

theorem digitsToNat_padZero (w : ℕ) (l : List Char) :
    digitsToNat (padZero w l) = digitsToNat l := by
  unfold padZero
  rw [digitsToNat_append]
  have : ∀ k, digitsToNat (List.replicate k '0') = 0 := by
    intro k
    induction k with
    | zero => rfl
    | succ k ih =>
      simp only [List.replicate_succ, digitsToNat, List.foldl_cons]
      have h0 : 10 * 0 + digitVal '0' = 0 := by decide
      rw [h0]
      exact ih
  rw [this]
  ring

theorem charOfNat_digit_isDigit {n : ℕ} (h : n < 10) :
    (Char.ofNat (48 + n)).isDigit = true := by
  interval_cases n <;> decide

theorem digitVal_charOfNat {n : ℕ} (h : n < 10) :
    digitVal (Char.ofNat (48 + n)) = n := by
  interval_cases n <;> decide

theorem natDigitsGo_spec (fuel n : ℕ) (h : n < 10 ^ fuel) (h1 : 1 ≤ fuel) :
    digitsToNat (natDigitsGo fuel n) = n ∧ natDigitsGo fuel n ≠ [] ∧
      ∀ c ∈ natDigitsGo fuel n, c.isDigit = true := by
  induction fuel generalizing n with
  | zero => omega
  | succ fuel ih =>
    by_cases hn : n < 10
    · refine ⟨?_, by simp [natDigitsGo, hn], ?_⟩
      · simp [natDigitsGo, hn, digitsToNat, digitVal_charOfNat hn]
      · intro c hc
        simp [natDigitsGo, hn] at hc
        subst hc
        exact charOfNat_digit_isDigit hn
    · have hfuel : 1 ≤ fuel := by
        by_contra hf
        interval_cases fuel
        · simp at h
          omega
      have hdiv : n / 10 < 10 ^ fuel := by
        rw [Nat.div_lt_iff_lt_mul (by norm_num)]
        calc n < 10 ^ (fuel + 1) := h
        _ = 10 ^ fuel * 10 := by ring
      obtain ⟨ihv, ihne, ihd⟩ := ih (n / 10) hdiv hfuel
      have hmod : n % 10 < 10 := Nat.mod_lt _ (by norm_num)
      refine ⟨?_, by simp [natDigitsGo, hn], ?_⟩
      · simp only [natDigitsGo, hn, if_false]
        rw [digitsToNat_append, ihv]
        have : digitsToNat [Char.ofNat (48 + n % 10)] = n % 10 := by
          simp [digitsToNat, digitVal_charOfNat hmod]
        rw [this]
        simp
        omega
      · intro c hc
        simp only [natDigitsGo, hn, if_false, List.mem_append, List.mem_singleton] at hc
        rcases hc with hc | hc
        · exact ihd c hc
        · subst hc
          exact charOfNat_digit_isDigit hmod

theorem nat_lt_ten_pow_succ (n : ℕ) : n < 10 ^ (n + 1) :=
  lt_of_lt_of_le (Nat.lt_pow_self (show (1:ℕ) < 10 by norm_num) n)
    (Nat.pow_le_pow_right (by norm_num) (by omega))

theorem natDigits_val (n : ℕ) : digitsToNat (natDigits n) = n :=
  (natDigitsGo_spec (n + 1) n (nat_lt_ten_pow_succ n) (by omega)).1

theorem natDigits_ne_nil (n : ℕ) : natDigits n ≠ [] :=
  (natDigitsGo_spec (n + 1) n (nat_lt_ten_pow_succ n) (by omega)).2.1

theorem natDigits_all_digit (n : ℕ) : ∀ c ∈ natDigits n, c.isDigit = true :=
  (natDigitsGo_spec (n + 1) n (nat_lt_ten_pow_succ n) (by omega)).2.2

theorem natDigitsGo_length_le (fuel n k : ℕ) (h : n < 10 ^ k) (hk : 1 ≤ k) :
    (natDigitsGo fuel n).length ≤ k := by
  induction fuel generalizing n k with
  | zero => simp [natDigitsGo]
  | succ fuel ih =>
    by_cases hn : n < 10
    · simp [natDigitsGo, hn]
      omega
    · have hk2 : 2 ≤ k := by
        by_contra hc
        interval_cases k
        omega
      have hdiv : n / 10 < 10 ^ (k - 1) := by
        rw [Nat.div_lt_iff_lt_mul (by norm_num)]
        calc n < 10 ^ k := h
        _ = 10 ^ (k - 1) * 10 := by
              rw [← pow_succ]
              congr 1
              omega
      have := ih (n / 10) (k - 1) hdiv (by omega)
      simp only [natDigitsGo, hn, if_false, List.length_append, List.length_singleton]
      omega

theorem natDigits_length_le {n k : ℕ} (h : n < 10 ^ k) (hk : 1 ≤ k) :
    (natDigits n).length ≤ k :=
  natDigitsGo_length_le (n + 1) n k h hk

theorem padZero_length {w : ℕ} {l : List Char} (h : l.length ≤ w) :
    (padZero w l).length = w := by
  simp [padZero]
  omega

theorem padZero_all_digit {w : ℕ} {l : List Char}
    (h : ∀ c ∈ l, c.isDigit = true) : ∀ c ∈ padZero w l, c.isDigit = true := by
  intro c hc
  simp only [padZero, List.mem_append, List.mem_replicate] at hc
  rcases hc with ⟨_, hc⟩ | hc
  · subst hc
    decide
  · exact h c hc

theorem padZero_ne_nil {w : ℕ} {l : List Char} (h : l ≠ []) :
    padZero w l ≠ [] := by
  simp [padZero]
  intro
  exact h

/-! ### Python numeric literal parsing (`int(s)` and `float(s)`)

The model covers the decimal grammar exercised by the app: optional
whitespace, optional sign, digit strings, a decimal point and an exponent
part for `float`.  CPython extras that the source never feeds in (underscore
separators, `inf`/`nan`, non-ASCII digits) are outside the model and simply
parse as invalid. -/

/-- Nonempty all-digit string to its value, else `none`. -/
def natOfDigits? (l : List Char) : Option ℕ :=
  if !l.isEmpty && l.all Char.isDigit then some (digitsToNat l) else Option.none

/-- Python `int(s)` after whitespace stripping: optional sign, digits. -/
def pyIntNoStrip? (l : List Char) : Option ℤ :=
  match l with
  | [] => Option.none
  | c :: r =>
    if c = '+' then (natOfDigits? r).map (fun n => (n : ℤ))
    else if c = '-' then (natOfDigits? r).map (fun n => -(n : ℤ))
    else (natOfDigits? l).map (fun n => (n : ℤ))

/-- Python `int(s)` (which strips surrounding whitespace itself). -/
def pyInt? (l : List Char) : Option ℤ := pyIntNoStrip? (pyStrip l)

/-- Unsigned decimal mantissa: `digits`, `digits.`, `.digits` or
`digits.digits` (at least one digit overall). -/
def pyDecimal? (l : List Char) : Option ℚ :=
  match splitChar '.' l with
  | [a] => (natOfDigits? a).map (fun n => (n : ℚ))
  | [a, b] =>
    if (a.all Char.isDigit && b.all Char.isDigit) && !(a.isEmpty && b.isEmpty) then
      some ((digitsToNat a : ℚ) + (digitsToNat b : ℚ) / 10 ^ b.length)
    else Option.none
  | _ => Option.none

/-- Unsigned float body with optional exponent (`E` normalised to `e`). -/
def pyFloatBody? (l : List Char) : Option ℚ :=
  match splitChar 'e' (l.map (fun c => if c = 'E' then 'e' else c)) with
  | [m] => pyDecimal? m
  | [m, ex] =>
    match pyDecimal? m, pyIntNoStrip? ex with
    | some q, some z => some (q * 10 ^ z)
    | _, _ => Option.none
  | _ => Option.none

/-- Python `float(s)` after whitespace stripping: optional sign, body. -/
def pyFloatNoStrip? (l : List Char) : Option ℚ :=
  match l with
  | [] => Option.none
  | c :: r =>
    if c = '+' then pyFloatBody? r
    else if c = '-' then (pyFloatBody? r).map Neg.neg
    else pyFloatBody? l

/-- Python `float(s)` (which strips surrounding whitespace itself). -/
def pyFloat? (l : List Char) : Option ℚ := pyFloatNoStrip? (pyStrip l)

/-! ### Time codec (src/streamlit_app.py lines 23-59) -/

/-- Round-half-to-even of a rational to an integer, as CPython float
formatting does when printing with a fixed number of decimals. -/
def roundHalfEven (x : ℚ) : ℤ :=
  let f := ⌊x⌋
  let r := x - f
  if r < 1 / 2 then f
  else if 1 / 2 < r then f + 1
  else if f % 2 = 0 then f else f + 1

theorem abs_roundHalfEven_sub_le (x : ℚ) : |(roundHalfEven x : ℚ) - x| ≤ 1 / 2 := by
  unfold roundHalfEven
  have h0 : (0:ℚ) ≤ x - ⌊x⌋ := by
    have := Int.floor_le x
    linarith
  have h1 : x - ⌊x⌋ < 1 := by
    have := Int.lt_floor_add_one x
    linarith
  by_cases hlt : x - ⌊x⌋ < 1 / 2
  · simp only [hlt, if_true]
    rw [abs_le]
    constructor <;> linarith
  · by_cases hgt : 1 / 2 < x - ⌊x⌋
    · simp only [hlt, hgt, if_true, if_false]
      rw [abs_le]
      push_cast
      constructor <;> linarith
    · have heq : x - ⌊x⌋ = 1 / 2 := by linarith
      by_cases hev : ⌊x⌋ % 2 = 0
      · simp only [hlt, hgt, hev, if_true, if_false]
        rw [abs_le]
        constructor <;> linarith
      · simp only [hlt, hgt, hev, if_true, if_false]
        rw [abs_le]
        push_cast
        constructor <;> linarith

theorem roundHalfEven_nonneg {x : ℚ} (h : 0 ≤ x) : 0 ≤ roundHalfEven x := by
  unfold roundHalfEven
  have hf : (0:ℤ) ≤ ⌊x⌋ := Int.floor_nonneg.mpr h
  dsimp only
  split_ifs <;> omega

/-- Fixed-point rendering of the seconds field: value `n / 10^p` printed with
exactly `p` fractional digits, the whole zero-padded to width `2 + 1 + p`
(so the integer part gets at least two digits; with `p = 0` CPython prints no
point and the padding applies to the bare integer). -/
def renderFixed (n p : ℕ) : List Char :=
  if p = 0 then padZero 3 (natDigits n)
  else padZero 2 (natDigits (n / 10 ^ p)) ++ '.' :: padZero p (natDigits (n % 10 ^ p))

/-- Source `fmt_time_hh(seconds, decimals)`: clamp negatives to
zero, `divmod` into hours/minutes/seconds and render as `HH:MM:SS.fff` with
`decimals` fractional digits (the callers all use the default `decimals=3`). -/
def fmt_time_hh (seconds : ℚ) (decimals : ℕ) : List Char :=
  let s := max 0 seconds
  let M : ℕ := (⌊s / 60⌋).toNat
  let srem : ℚ := s - 60 * M
  let n : ℕ := (roundHalfEven (srem * 10 ^ decimals)).toNat
  padZero 2 (natDigits (M / 60)) ++ ':' ::
    (padZero 2 (natDigits (M % 60)) ++ ':' :: renderFixed n decimals)

/-- Source `parse_timecode_to_seconds`: strip, split on `:`,
interpret `H:M:S(.f)`, `M:S(.f)` or a bare number of seconds; any parse
failure falls back to `float(tc)` and finally to `None`. -/
def parse_timecode_to_seconds (tc0 : List Char) : Option ℚ :=
  let tc := pyStrip tc0
  if tc.isEmpty then Option.none
  else
    match splitChar ':' tc with
    | [p0, p1, p2] =>
      match pyInt? p0, pyInt? p1, pyFloat? p2 with
      | some h, some m, some s => some ((h : ℚ) * 3600 + (m : ℚ) * 60 + s)
      | _, _, _ => pyFloatNoStrip? tc
    | [p0, p1] =>
      match pyInt? p0, pyFloat? p1 with
      | some m, some s => some ((m : ℚ) * 60 + s)
      | _, _ => pyFloatNoStrip? tc
    | _ => pyFloatNoStrip? tc

/-! ### Round-trip lemmas for the time codec -/

theorem char_isDigit_ne {c : Char} (h : c.isDigit = true) (d : Char)
    (hd : d.isDigit = false) : c ≠ d := by
  intro he
  subst he
  rw [h] at hd
  cases hd

theorem pyIsSpace_of_digit {c : Char} (h : c.isDigit = true) :
    pyIsSpace c = false := by
  unfold pyIsSpace
  simp only [Bool.or_eq_false_iff, decide_eq_false_iff_not]
  exact ⟨⟨⟨⟨⟨char_isDigit_ne h _ (by decide), char_isDigit_ne h _ (by decide)⟩,
    char_isDigit_ne h _ (by decide)⟩, char_isDigit_ne h _ (by decide)⟩,
    char_isDigit_ne h _ (by decide)⟩, char_isDigit_ne h _ (by decide)⟩

theorem not_mem_of_all_digit {l : List Char} (h : ∀ c ∈ l, c.isDigit = true)
    {d : Char} (hd : d.isDigit = false) : d ∉ l := by
  intro hm
  rw [h d hm] at hd
  cases hd

theorem map_eq_self_of_forall {f : Char → Char} {l : List Char}
    (h : ∀ c ∈ l, f c = c) : l.map f = l := by
  induction l with
  | nil => rfl
  | cons c t ih =>
    simp only [List.map_cons]
    rw [h c (by simp), ih (fun c hc => h c (by simp [hc]))]

theorem all_eq_true_of_forall {l : List Char} (h : ∀ c ∈ l, c.isDigit = true) :
    l.all Char.isDigit = true := List.all_eq_true.mpr h

theorem pyIntNoStrip?_cons (c : Char) (r : List Char) :
    pyIntNoStrip? (c :: r) =
      if c = '+' then (natOfDigits? r).map (fun n => (n : ℤ))
      else if c = '-' then (natOfDigits? r).map (fun n => -(n : ℤ))
      else (natOfDigits? (c :: r)).map (fun n => (n : ℤ)) := rfl

theorem pyFloatNoStrip?_cons (c : Char) (r : List Char) :
    pyFloatNoStrip? (c :: r) =
      if c = '+' then pyFloatBody? r
      else if c = '-' then (pyFloatBody? r).map Neg.neg
      else pyFloatBody? (c :: r) := rfl

/-- Parsing an all-digit string with Python `int` recovers its value. -/
theorem pyInt?_digits {l : List Char} (hne : l ≠ [])
    (hd : ∀ c ∈ l, c.isDigit = true) :
    pyInt? l = some ((digitsToNat l : ℤ)) := by
  unfold pyInt?
  rw [pyStrip_eq_self (fun c hc => pyIsSpace_of_digit (hd c hc))]
  cases l with
  | nil => exact absurd rfl hne
  | cons c r =>
    have hc : c.isDigit = true := hd c (by simp)
    rw [pyIntNoStrip?_cons,
        if_neg (char_isDigit_ne hc '+' (by decide)),
        if_neg (char_isDigit_ne hc '-' (by decide))]
    unfold natOfDigits?
    rw [if_pos]
    · rfl
    · simp only [List.isEmpty_cons, Bool.not_false, Bool.true_and]
      exact all_eq_true_of_forall hd

/-- Parsing an all-digit string as an unsigned decimal recovers its value. -/
theorem pyDecimal?_digits {l : List Char} (hne : l ≠ [])
    (hd : ∀ c ∈ l, c.isDigit = true) :
    pyDecimal? l = some ((digitsToNat l : ℚ)) := by
  unfold pyDecimal?
  rw [splitChar_of_not_mem (not_mem_of_all_digit hd (by decide))]
  dsimp only
  unfold natOfDigits?
  rw [if_pos]
  · rfl
  · cases l with
    | nil => exact absurd rfl hne
    | cons c r =>
      simp only [List.isEmpty_cons, Bool.not_false, Bool.true_and]
      exact all_eq_true_of_forall hd

/-- Parsing an all-digit string as an unsigned float body recovers its value. -/
theorem pyFloatBody?_digits {l : List Char} (hne : l ≠ [])
    (hd : ∀ c ∈ l, c.isDigit = true) :
    pyFloatBody? l = some ((digitsToNat l : ℚ)) := by
  unfold pyFloatBody?
  rw [map_eq_self_of_forall (fun d hm => by
    rw [if_neg]
    exact char_isDigit_ne (hd d hm) 'E' (by decide))]
  rw [splitChar_of_not_mem (not_mem_of_all_digit hd (by decide))]
  dsimp only
  exact pyDecimal?_digits hne hd

/-- Parsing an all-digit string with Python `float` recovers its value. -/
theorem pyFloatNoStrip?_digits {l : List Char} (hne : l ≠ [])
    (hd : ∀ c ∈ l, c.isDigit = true) :
    pyFloatNoStrip? l = some ((digitsToNat l : ℚ)) := by
  have hbody : pyFloatBody? l = some ((digitsToNat l : ℚ)) :=
    pyFloatBody?_digits hne hd
  cases l with
  | nil => exact absurd rfl hne
  | cons c r =>
    have hc : c.isDigit = true := hd c (by simp)
    rw [pyFloatNoStrip?_cons,
        if_neg (char_isDigit_ne hc '+' (by decide)),
        if_neg (char_isDigit_ne hc '-' (by decide))]
    exact hbody

/-- Parsing the fixed-point seconds rendering with Python `float` recovers
`n / 10^p` exactly. -/
theorem pyFloat?_renderFixed (n p : ℕ) :
    pyFloat? (renderFixed n p) = some ((n : ℚ) / 10 ^ p) := by
  by_cases hp : p = 0
  · subst hp
    have hR : renderFixed n 0 = padZero 3 (natDigits n) := rfl
    have hd : ∀ c ∈ renderFixed n 0, c.isDigit = true := by
      rw [hR]
      exact padZero_all_digit (natDigits_all_digit n)
    have hne : renderFixed n 0 ≠ [] := by
      rw [hR]
      exact padZero_ne_nil (natDigits_ne_nil n)
    unfold pyFloat?
    rw [pyStrip_eq_self (fun c hc => pyIsSpace_of_digit (hd c hc)),
        pyFloatNoStrip?_digits hne hd]
    have hval : digitsToNat (renderFixed n 0) = n := by
      rw [hR, digitsToNat_padZero, natDigits_val]
    rw [hval]
    norm_num
  · have hp1 : 1 ≤ p := by omega
    set D1 := padZero 2 (natDigits (n / 10 ^ p)) with hD1
    set D2 := padZero p (natDigits (n % 10 ^ p)) with hD2
    have hC : renderFixed n p = D1 ++ '.' :: D2 := by
      simp [renderFixed, hp]
    have hd1 : ∀ c ∈ D1, c.isDigit = true :=
      padZero_all_digit (natDigits_all_digit _)
    have hd2 : ∀ c ∈ D2, c.isDigit = true :=
      padZero_all_digit (natDigits_all_digit _)
    have hmem : ∀ c ∈ D1 ++ '.' :: D2, c.isDigit = true ∨ c = '.' := by
      intro c hc
      simp only [List.mem_append, List.mem_cons] at hc
      rcases hc with hc | hc | hc
      · exact Or.inl (hd1 c hc)
      · exact Or.inr hc
      · exact Or.inl (hd2 c hc)
    have hnospace : ∀ c ∈ D1 ++ '.' :: D2, pyIsSpace c = false := by
      intro c hc
      rcases hmem c hc with h | h
      · exact pyIsSpace_of_digit h
      · subst h
        decide
    have hnodot1 : '.' ∉ D1 := not_mem_of_all_digit hd1 (by decide)
    have hnodot2 : '.' ∉ D2 := not_mem_of_all_digit hd2 (by decide)
    have hdec : pyDecimal? (D1 ++ '.' :: D2) = some ((n : ℚ) / 10 ^ p) := by
      unfold pyDecimal?
      rw [splitChar_append hnodot1, splitChar_of_not_mem hnodot2]
      dsimp only
      rw [if_pos]
      · have hval1 : digitsToNat D1 = n / 10 ^ p := by
          rw [hD1, digitsToNat_padZero, natDigits_val]
        have hlen2 : D2.length = p := by
          rw [hD2]
          exact padZero_length (natDigits_length_le (Nat.mod_lt _ (by positivity)) hp1)
        have hval2 : digitsToNat D2 = n % 10 ^ p := by
          rw [hD2, digitsToNat_padZero, natDigits_val]
        rw [hval1, hval2, hlen2]
        congr 1
        have hpow : (10:ℚ) ^ p ≠ 0 := by positivity
        rw [eq_div_iff hpow, add_mul, div_mul_cancel₀ _ hpow]
        exact_mod_cast Nat.div_add_mod' n (10 ^ p)
      · simp only [Bool.and_eq_true]
        refine ⟨⟨all_eq_true_of_forall hd1, all_eq_true_of_forall hd2⟩, ?_⟩
        have hEm : D1.isEmpty = false := by
          cases hE : D1 with
          | nil => exact absurd hE (padZero_ne_nil (natDigits_ne_nil _))
          | cons a b => rfl
        simp only [hEm, Bool.false_and, Bool.not_false]
    have hbody : pyFloatBody? (D1 ++ '.' :: D2) = some ((n : ℚ) / 10 ^ p) := by
      unfold pyFloatBody?
      rw [map_eq_self_of_forall (fun d hm => by
        rw [if_neg]
        rcases hmem d hm with h | h
        · exact char_isDigit_ne h 'E' (by decide)
        · subst h
          decide)]
      have hnoe : 'e' ∉ D1 ++ '.' :: D2 := by
        intro hm
        rcases hmem 'e' hm with h | h <;> simp at h
      rw [splitChar_of_not_mem hnoe]
      dsimp only
      exact hdec
    have hd1ne : D1 ≠ [] := padZero_ne_nil (natDigits_ne_nil _)
    obtain ⟨c0, r0, hsplit⟩ : ∃ c0 r0, D1 = c0 :: r0 := by
      cases hD : D1 with
      | nil => exact absurd hD hd1ne
      | cons a b => exact ⟨a, b, rfl⟩
    have hc0 : c0.isDigit = true := hd1 c0 (by rw [hsplit]; simp)
    have hLcons : D1 ++ '.' :: D2 = c0 :: (r0 ++ '.' :: D2) := by
      rw [hsplit]
      rfl
    unfold pyFloat?
    rw [hC, pyStrip_eq_self hnospace, hLcons, pyFloatNoStrip?_cons,
        if_neg (char_isDigit_ne hc0 '+' (by decide)),
        if_neg (char_isDigit_ne hc0 '-' (by decide)),
        ← hLcons]
    exact hbody

/-- Minutes-total of the clamped input, as computed by `divmod(seconds, 60)`. -/
def fmtM (s : ℚ) : ℕ := (⌊(max 0 s) / 60⌋).toNat

/-- Seconds field scaled by `10^p` and rounded, as printed by `f"{s:0w.pf}"`. -/
def fmtN (s : ℚ) (p : ℕ) : ℕ :=
  (roundHalfEven ((max 0 s - 60 * (fmtM s : ℚ)) * 10 ^ p)).toNat

theorem fmt_time_hh_eq (s : ℚ) (p : ℕ) :
    fmt_time_hh s p = padZero 2 (natDigits (fmtM s / 60)) ++ ':' ::
      (padZero 2 (natDigits (fmtM s % 60)) ++ ':' :: renderFixed (fmtN s p) p) := rfl

theorem renderFixed_mem (n p : ℕ) :
    ∀ c ∈ renderFixed n p, c.isDigit = true ∨ c = '.' := by
  intro c hc
  by_cases hp : p = 0
  · subst hp
    exact Or.inl (padZero_all_digit (natDigits_all_digit _) c hc)
  · have hC : renderFixed n p =
        padZero 2 (natDigits (n / 10 ^ p)) ++ '.' :: padZero p (natDigits (n % 10 ^ p)) := by
      simp [renderFixed, hp]
    rw [hC] at hc
    simp only [List.mem_append, List.mem_cons] at hc
    rcases hc with hc | hc | hc
    · exact Or.inl (padZero_all_digit (natDigits_all_digit _) c hc)
    · exact Or.inr hc
    · exact Or.inl (padZero_all_digit (natDigits_all_digit _) c hc)

/-- Parsing the formatted timecode always succeeds and recovers the rendered
value `3600*H + 60*M + n/10^p` exactly. -/
theorem parse_fmt_time_hh (s : ℚ) (p : ℕ) :
    parse_timecode_to_seconds (fmt_time_hh s p) =
      some (((fmtM s / 60 : ℕ) : ℚ) * 3600 + ((fmtM s % 60 : ℕ) : ℚ) * 60
        + ((fmtN s p : ℕ) : ℚ) / 10 ^ p) := by
  have hdA : ∀ c ∈ padZero 2 (natDigits (fmtM s / 60)), c.isDigit = true :=
    padZero_all_digit (natDigits_all_digit _)
  have hdB : ∀ c ∈ padZero 2 (natDigits (fmtM s % 60)), c.isDigit = true :=
    padZero_all_digit (natDigits_all_digit _)
  have hneA : padZero 2 (natDigits (fmtM s / 60)) ≠ [] :=
    padZero_ne_nil (natDigits_ne_nil _)
  have hneB : padZero 2 (natDigits (fmtM s % 60)) ≠ [] :=
    padZero_ne_nil (natDigits_ne_nil _)
  have hmemC := renderFixed_mem (fmtN s p) p
  have hcolonA : ':' ∉ padZero 2 (natDigits (fmtM s / 60)) :=
    not_mem_of_all_digit hdA (by decide)
  have hcolonB : ':' ∉ padZero 2 (natDigits (fmtM s % 60)) :=
    not_mem_of_all_digit hdB (by decide)
  have hcolonC : ':' ∉ renderFixed (fmtN s p) p := by
    intro hm
    rcases hmemC ':' hm with h | h
    · exact absurd h (by decide)
    · exact absurd h (by decide)
  have hnospace : ∀ c ∈ padZero 2 (natDigits (fmtM s / 60)) ++ ':' ::
      (padZero 2 (natDigits (fmtM s % 60)) ++ ':' :: renderFixed (fmtN s p) p),
      pyIsSpace c = false := by
    intro c hc
    simp only [List.mem_append, List.mem_cons] at hc
    rcases hc with hc | hc | hc | hc
    · exact pyIsSpace_of_digit (hdA c hc)
    · subst hc
      decide
    · exact pyIsSpace_of_digit (hdB c hc)
    · rcases hc with hc | hc
      · subst hc
        decide
      · rcases hmemC c hc with h | h
        · exact pyIsSpace_of_digit h
        · subst h
          decide
  have hLne : padZero 2 (natDigits (fmtM s / 60)) ++ ':' ::
      (padZero 2 (natDigits (fmtM s % 60)) ++ ':' :: renderFixed (fmtN s p) p) ≠ [] := by
    simp
  have hEm : (padZero 2 (natDigits (fmtM s / 60)) ++ ':' ::
      (padZero 2 (natDigits (fmtM s % 60)) ++ ':' :: renderFixed (fmtN s p) p)).isEmpty
      = false := by
    cases hL : padZero 2 (natDigits (fmtM s / 60)) ++ ':' ::
        (padZero 2 (natDigits (fmtM s % 60)) ++ ':' :: renderFixed (fmtN s p) p) with
    | nil => exact absurd hL hLne
    | cons a b => rfl
  rw [fmt_time_hh_eq]
  unfold parse_timecode_to_seconds
  dsimp only
  rw [pyStrip_eq_self hnospace, hEm]
  simp only [Bool.false_eq_true, if_false]
  rw [splitChar_append hcolonA, splitChar_append hcolonB,
      splitChar_of_not_mem hcolonC]
  dsimp only
  rw [pyInt?_digits hneA hdA, pyInt?_digits hneB hdB, pyFloat?_renderFixed]
  dsimp only
  rw [digitsToNat_padZero, natDigits_val, digitsToNat_padZero, natDigits_val]
  norm_cast

/-- C1.  Time codec round-trip: for every `s ≥ 0` and every precision `p`,
parsing the formatted string succeeds and the recovered value is within
`10^-p` of `s`. -/
theorem C1_time_codec_round_trip (s : ℚ) (p : ℕ) (hs : 0 ≤ s) :
    ∃ v, parse_timecode_to_seconds (fmt_time_hh s p) = some v ∧
      |v - s| ≤ (1 / 10) ^ p := by
  refine ⟨_, parse_fmt_time_hh s p, ?_⟩
  have hmax : max 0 s = s := max_eq_right hs
  have hfloor : (0:ℤ) ≤ ⌊s / 60⌋ := Int.floor_nonneg.mpr (by positivity)
  have hM : ((fmtM s : ℕ) : ℚ) = (⌊s / 60⌋ : ℚ) := by
    unfold fmtM
    rw [hmax]
    have h1 : ((⌊s / 60⌋.toNat : ℕ) : ℤ) = ⌊s / 60⌋ := Int.toNat_of_nonneg hfloor
    exact_mod_cast h1
  have hMle : 60 * ((fmtM s : ℕ) : ℚ) ≤ s := by
    rw [hM]
    have := Int.floor_le (s / 60)
    nlinarith
  have hsrem : (0:ℚ) ≤ s - 60 * ((fmtM s : ℕ) : ℚ) := by linarith
  have hround : (0:ℤ) ≤ roundHalfEven ((s - 60 * ((fmtM s : ℕ) : ℚ)) * 10 ^ p) :=
    roundHalfEven_nonneg (by positivity)
  have hNcast : ((fmtN s p : ℕ) : ℚ) =
      ((roundHalfEven ((s - 60 * ((fmtM s : ℕ) : ℚ)) * 10 ^ p) : ℤ) : ℚ) := by
    unfold fmtN
    rw [hmax]
    have h1 : (((roundHalfEven ((s - 60 * ((fmtM s : ℕ) : ℚ)) * 10 ^ p)).toNat : ℕ) : ℤ)
        = roundHalfEven ((s - 60 * ((fmtM s : ℕ) : ℚ)) * 10 ^ p) :=
      Int.toNat_of_nonneg hround
    exact_mod_cast h1
  have hHM : ((fmtM s / 60 : ℕ) : ℚ) * 3600 + ((fmtM s % 60 : ℕ) : ℚ) * 60 =
      60 * ((fmtM s : ℕ) : ℚ) := by
    have := Nat.div_add_mod (fmtM s) 60
    have hcast : ((60 * (fmtM s / 60) + fmtM s % 60 : ℕ) : ℚ) = ((fmtM s : ℕ) : ℚ) := by
      exact_mod_cast this
    push_cast at hcast
    linarith
  set y : ℚ := (s - 60 * ((fmtM s : ℕ) : ℚ)) * 10 ^ p with hy
  have habs : |((roundHalfEven y : ℤ) : ℚ) - y| ≤ 1 / 2 := abs_roundHalfEven_sub_le y
  have hpow : (0:ℚ) < 10 ^ p := by positivity
  have key : ((fmtM s / 60 : ℕ) : ℚ) * 3600 + ((fmtM s % 60 : ℕ) : ℚ) * 60
      + ((fmtN s p : ℕ) : ℚ) / 10 ^ p - s =
      (((roundHalfEven y : ℤ) : ℚ) - y) / 10 ^ p := by
    rw [hHM, hNcast]
    field_simp
    ring
  rw [key, abs_div, abs_of_pos hpow, div_le_iff₀ hpow]
  have hgoal : ((1:ℚ) / 10) ^ p * 10 ^ p = 1 := by
    rw [div_pow, one_pow, div_mul_cancel₀]
    positivity
  rw [hgoal]
  linarith

/-- Witness for C1 at `s = 12.5`, `p = 3`. -/
theorem C1_time_codec_round_trip_witness :
    ∃ v, parse_timecode_to_seconds (fmt_time_hh (25 / 2) 3) = some v ∧
      |v - 25 / 2| ≤ (1 / 10) ^ 3 :=
  C1_time_codec_round_trip (25 / 2) 3 (by norm_num)

/-! ### Python `str()` of scalar values (used by the csv writer)

`str(float)` is CPython's shortest round-trip repr.  Under the exact-rational
float model this is rendered for values with a short terminating decimal
expansion in the range where CPython prints positional decimal form
(`1e-4 ≤ |x| < 1e16`, or zero, or integers); outside that range CPython
switches to scientific form, which no claim exercises, so the model
returns an explicit marker string there. -/

/-- Smallest `k < 18` with `q * 10^k` integral (`fuel`-bounded search). -/
def decExpGo (q : ℚ) : ℕ → ℕ → Option ℕ
  | 0, _ => Option.none
  | fuel + 1, k => if (q * 10 ^ k).den = 1 then some k else decExpGo q fuel (k + 1)

def decExp? (q : ℚ) : Option ℕ := decExpGo q 18 0

/-- Python `str(int)`. -/
def intRepr (n : ℤ) : List Char :=
  if n < 0 then '-' :: natDigits n.natAbs else natDigits n.toNat

/-- Python `str(float)` for a nonnegative value, positional decimal form. -/
def reprFloatNN (q : ℚ) : List Char :=
  if 10 ^ 16 ≤ q then "<float-repr-not-modelled>".toList
  else if 0 < q ∧ q < 1 / 10 ^ 4 then "<float-repr-not-modelled>".toList
  else
    match decExp? q with
    | some 0 => natDigits q.num.toNat ++ ".0".toList
    | some (k + 1) =>
      natDigits ((q * 10 ^ (k + 1)).num.toNat / 10 ^ (k + 1)) ++ '.' ::
        padZero (k + 1) (natDigits ((q * 10 ^ (k + 1)).num.toNat % 10 ^ (k + 1)))
    | Option.none => "<float-repr-not-modelled>".toList

/-- Python `str(float)`. -/
def reprFloat (q : ℚ) : List Char :=
  if q < 0 then '-' :: reprFloatNN (-q) else reprFloatNN q

/-! ### CSV export (`events_to_csv_bytes`, src lines 61-68)

`csv.DictWriter(buf, fieldnames=..., extrasaction="ignore")` with the default
dialect: fields joined by `,`, records terminated by `\r\n`, minimal quoting
(a field is quoted iff it contains `,`, `"`, `\r` or `\n`; quotes doubled),
missing keys written as `restval` `""`, `None` written as the empty string,
other values via `str()`.  The byte output is the UTF-8 encoding of the
character sequence modelled here. -/

def FIELDNAMES : List String :=
  ["audio_file", "time_sec", "timecode", "label", "note", "logged_at_epoch"]

/-- String the csv writer emits for one cell (`Option.none` = missing key,
written as the `restval` empty string). -/
def csvCellStr : Option PyVal → List Char
  | Option.none => []
  | some PyVal.none => []
  | some (PyVal.str s) => s
  | some (PyVal.float q) => reprFloat q
  | some (PyVal.int n) => intRepr n
  | some (PyVal.bool b) => if b then "True".toList else "False".toList
  | some (PyVal.list _) => "<container-repr-not-modelled>".toList
  | some (PyVal.dict _) => "<container-repr-not-modelled>".toList

def csvNeedsQuote (f : List Char) : Bool :=
  f.any (fun c => c = ',' || c = '"' || c = '\r' || c = '\n')

def csvEscape (f : List Char) : List Char :=
  f.foldr (fun c acc => if c = '"' then '"' :: '"' :: acc else c :: acc) []

def csvQuoteField (f : List Char) : List Char :=
  if csvNeedsQuote f then '"' :: (csvEscape f ++ ['"']) else f

def joinSep : List (List Char) → List Char
  | [] => []
  | [x] => x
  | x :: y :: t => x ++ ',' :: joinSep (y :: t)

def csvLine (cells : List (List Char)) : List Char :=
  joinSep (cells.map csvQuoteField) ++ ['\r', '\n']

def rowCells (row : List (String × PyVal)) : List (List Char) :=
  FIELDNAMES.map (fun fn => csvCellStr (dget row fn))

/-- Source `events_to_csv_bytes`: header row first, then one row per event. -/
def events_to_csv_bytes (events : List (List (String × PyVal))) : List Char :=
  csvLine (FIELDNAMES.map String.toList) ++
    (events.map (fun r => csvLine (rowCells r))).flatten

/-! ### A CSV record parser, to state what "columns" the export has -/

/-- Consume an unquoted field: stop at `,` or `\r`. -/
def takeUnquoted : List Char → List Char × List Char
  | [] => ([], [])
  | c :: cs =>
    if c = ',' || c = '\r' then ([], c :: cs)
    else
      let p := takeUnquoted cs
      (c :: p.1, p.2)

/-- Consume a quoted field body (after the opening quote); `""` is an escaped
quote, a lone `"` closes the field. -/
def takeQuoted : List Char → List Char × List Char
  | [] => ([], [])
  | c :: cs =>
    if c = '"' then
      match cs with
      | [] => ([], [])
      | c2 :: cs2 =>
        if c2 = '"' then
          let p := takeQuoted cs2
          ('"' :: p.1, p.2)
        else ([], cs)
    else
      let p := takeQuoted cs
      (c :: p.1, p.2)

def takeField : List Char → List Char × List Char
  | [] => ([], [])
  | c :: cs => if c = '"' then takeQuoted cs else takeUnquoted (c :: cs)

/-- Fields of one record; returns the fields and the input after the
record's `\r\n` terminator. -/
def parseFieldsGo : ℕ → List Char → List (List Char) × List Char
  | 0, l => ([], l)
  | fuel + 1, l =>
    let p := takeField l
    match p.2 with
    | [] => ([p.1], [])
    | c :: r2 =>
      if c = ',' then
        let q := parseFieldsGo fuel r2
        (p.1 :: q.1, q.2)
      else if c = '\r' then
        match r2 with
        | [] => ([p.1], [])
        | c2 :: r3 => if c2 = '\n' then ([p.1], r3) else ([p.1], c2 :: r3)
      else ([p.1], [])

def parseFields (l : List Char) : List (List Char) × List Char :=
  parseFieldsGo (l.length + 1) l

def csvRecordsGo : ℕ → List Char → List (List (List Char))
  | 0, _ => []
  | _ + 1, [] => []
  | fuel + 1, l =>
    let p := parseFields l
    p.1 :: csvRecordsGo fuel p.2

/-- All records of a CSV character stream. -/
def csvRecords (l : List Char) : List (List (List Char)) :=
  csvRecordsGo (l.length + 1) l

/-! ### CSV render/parse inversion -/

/-- The rest after a rendered field starts at a separator (or is empty). -/
def sepStart (r : List Char) : Prop :=
  r = [] ∨ (∃ r2, r = ',' :: r2) ∨ (∃ r2, r = '\r' :: r2)

theorem takeUnquoted_render {f r : List Char}
    (hf : ∀ c ∈ f, c ≠ ',' ∧ c ≠ '\r') (hr : sepStart r) :
    takeUnquoted (f ++ r) = (f, r) := by
  induction f with
  | nil =>
    simp only [List.nil_append]
    rcases hr with h | ⟨r2, h⟩ | ⟨r2, h⟩
    · subst h
      rfl
    · subst h
      simp [takeUnquoted]
    · subst h
      simp [takeUnquoted]
  | cons c t ih =>
    have hc := hf c (by simp)
    simp only [List.cons_append]
    unfold takeUnquoted
    rw [if_neg (by simp [hc.1, hc.2])]
    rw [ih (fun d hd => hf d (by simp [hd]))]

theorem takeQuoted_render {f r : List Char} (hr : sepStart r) :
    takeQuoted (csvEscape f ++ '"' :: r) = (f, r) := by
  induction f with
  | nil =>
    simp only [csvEscape, List.foldr_nil, List.nil_append]
    unfold takeQuoted
    rw [if_pos rfl]
    rcases hr with h | ⟨r2, h⟩ | ⟨r2, h⟩
    · subst h
      rfl
    · subst h
      simp
    · subst h
      simp
  | cons c t ih =>
    by_cases hc : c = '"'
    · subst hc
      have hE : csvEscape ('"' :: t) = '"' :: '"' :: csvEscape t := by
        simp [csvEscape]
      rw [hE, List.cons_append, List.cons_append]
      unfold takeQuoted
      rw [if_pos rfl]
      dsimp only
      rw [if_pos rfl, ih]
    · have hE : csvEscape (c :: t) = c :: csvEscape t := by
        simp [csvEscape, hc]
      rw [hE, List.cons_append]
      unfold takeQuoted
      rw [if_neg hc, ih]

theorem takeField_render (f r : List Char) (hr : sepStart r) :
    takeField (csvQuoteField f ++ r) = (f, r) := by
  unfold csvQuoteField
  by_cases hq : csvNeedsQuote f = true
  · rw [if_pos hq]
    have : ('"' :: (csvEscape f ++ ['"'])) ++ r = '"' :: (csvEscape f ++ '"' :: r) := by
      simp
    rw [this]
    unfold takeField
    dsimp only
    rw [if_pos rfl]
    exact takeQuoted_render hr
  · rw [if_neg hq]
    have hclean : ∀ c ∈ f, ¬(c = ',' || c = '"' || c = '\r' || c = '\n') = true := by
      intro c hc hcc
      exact hq (List.any_eq_true.mpr ⟨c, hc, hcc⟩)
    have hf : ∀ c ∈ f, c ≠ ',' ∧ c ≠ '\r' := by
      intro c hc
      have := hclean c hc
      simp only [Bool.or_eq_true, decide_eq_true_eq, not_or] at this
      exact ⟨this.1.1.1, this.1.2⟩
    cases f with
    | nil =>
      simp only [List.nil_append]
      rcases hr with h | ⟨r2, h⟩ | ⟨r2, h⟩
      · subst h
        rfl
      · subst h
        unfold takeField
        dsimp only
        rw [if_neg (by decide)]
        exact takeUnquoted_render (fun c hc => absurd hc (List.not_mem_nil c))
          (Or.inr (Or.inl ⟨r2, rfl⟩))
      · subst h
        unfold takeField
        dsimp only
        rw [if_neg (by decide)]
        exact takeUnquoted_render (fun c hc => absurd hc (List.not_mem_nil c))
          (Or.inr (Or.inr ⟨r2, rfl⟩))
    | cons c t =>
      have hcq : c ≠ '"' := by
        intro he
        have := hclean c (by simp)
        simp [he] at this
      rw [List.cons_append]
      unfold takeField
      dsimp only
      rw [if_neg hcq, ← List.cons_append]
      exact takeUnquoted_render hf hr

theorem parseFieldsGo_render (fs : List (List Char)) (rest : List Char) :
    ∀ fuel, fs ≠ [] → fs.length ≤ fuel →
    parseFieldsGo fuel (joinSep (fs.map csvQuoteField) ++ '\r' :: '\n' :: rest) =
      (fs, rest) := by
  induction fs with
  | nil => intro fuel h _; exact absurd rfl h
  | cons f t ih =>
    intro fuel _ hfuel
    obtain ⟨fuel2, rfl⟩ : ∃ fuel2, fuel = fuel2 + 1 := by
      cases fuel with
      | zero => simp at hfuel
      | succ k => exact ⟨k, rfl⟩
    cases t with
    | nil =>
      have hJ : joinSep ([f].map csvQuoteField) = csvQuoteField f := rfl
      rw [hJ]
      unfold parseFieldsGo
      rw [takeField_render f ('\r' :: '\n' :: rest) (Or.inr (Or.inr ⟨_, rfl⟩))]
      dsimp only
      rw [if_neg (by decide), if_pos rfl, if_pos rfl]
    | cons f2 t2 =>
      have hJ : joinSep ((f :: f2 :: t2).map csvQuoteField) =
          csvQuoteField f ++ ',' :: joinSep ((f2 :: t2).map csvQuoteField) := rfl
      rw [hJ]
      have hassoc : (csvQuoteField f ++ ',' :: joinSep ((f2 :: t2).map csvQuoteField))
          ++ '\r' :: '\n' :: rest =
          csvQuoteField f ++ ',' ::
            (joinSep ((f2 :: t2).map csvQuoteField) ++ '\r' :: '\n' :: rest) := by
        simp
      rw [hassoc]
      unfold parseFieldsGo
      rw [takeField_render f _ (Or.inr (Or.inl ⟨_, rfl⟩))]
      dsimp only
      rw [if_pos rfl]
      have hlen : (f2 :: t2).length ≤ fuel2 := by
        simp only [List.length_cons] at hfuel ⊢
        omega
      rw [ih fuel2 (by simp) hlen]

theorem takeUnquoted_rest_le (l : List Char) :
    (takeUnquoted l).2.length ≤ l.length := by
  induction l with
  | nil => simp [takeUnquoted]
  | cons c t ih =>
    unfold takeUnquoted
    by_cases hc : (c = ',' || c = '\r') = true
    · rw [if_pos hc]
    · rw [if_neg hc]
      simp only [List.length_cons]
      omega

theorem takeQuoted_rest_le_go (fuel : ℕ) :
    ∀ l : List Char, l.length ≤ fuel → (takeQuoted l).2.length ≤ l.length := by
  induction fuel with
  | zero =>
    intro l hl
    have : l = [] := List.length_eq_zero.mp (by omega)
    subst this
    simp [takeQuoted]
  | succ fuel ih =>
    intro l hl
    cases l with
    | nil => simp [takeQuoted]
    | cons c cs =>
      unfold takeQuoted
      dsimp only
      by_cases hc : c = '"'
      · rw [if_pos hc]
        cases cs with
        | nil => simp
        | cons c2 cs2 =>
          dsimp only
          by_cases hc2 : c2 = '"'
          · rw [if_pos hc2]
            have hlen : cs2.length ≤ fuel := by
              simp only [List.length_cons] at hl
              omega
            have := ih cs2 hlen
            simp only [List.length_cons]
            omega
          · rw [if_neg hc2]
            simp only [List.length_cons]
            omega
      · rw [if_neg hc]
        have hlen : cs.length ≤ fuel := by
          simp only [List.length_cons] at hl
          omega
        have := ih cs hlen
        simp only [List.length_cons]
        omega

theorem takeQuoted_rest_le (l : List Char) :
    (takeQuoted l).2.length ≤ l.length :=
  takeQuoted_rest_le_go l.length l le_rfl

theorem takeField_rest_le (l : List Char) :
    (takeField l).2.length ≤ l.length := by
  cases l with
  | nil => simp [takeField]
  | cons c cs =>
    unfold takeField
    dsimp only
    by_cases hc : c = '"'
    · rw [if_pos hc]
      have := takeQuoted_rest_le cs
      simp only [List.length_cons]
      omega
    · rw [if_neg hc]
      exact takeUnquoted_rest_le (c :: cs)

theorem parseFieldsGo_rest_lt (fuel : ℕ) :
    ∀ l : List Char, l ≠ [] → (parseFieldsGo (fuel + 1) l).2.length < l.length := by
  induction fuel with
  | zero =>
    intro l h
    have htf := takeField_rest_le l
    have hlpos : 0 < l.length := List.length_pos.mpr h
    unfold parseFieldsGo
    dsimp only
    cases hp : (takeField l).2 with
    | nil =>
      exact hlpos
    | cons c r2 =>
      rw [hp] at htf
      simp only [List.length_cons] at htf
      dsimp only
      by_cases hc : c = ','
      · rw [if_pos hc]
        show (parseFieldsGo 0 r2).2.length < l.length
        have hq : parseFieldsGo 0 r2 = ([], r2) := rfl
        rw [hq]
        show r2.length < l.length
        omega
      · rw [if_neg hc]
        by_cases hcr : c = '\r'
        · rw [if_pos hcr]
          cases r2 with
          | nil =>
            exact hlpos
          | cons c2 r3 =>
            dsimp only
            by_cases hc2 : c2 = '\n'
            · rw [if_pos hc2]
              show r3.length < l.length
              simp only [List.length_cons] at htf
              omega
            · rw [if_neg hc2]
              show (c2 :: r3).length < l.length
              simp only [List.length_cons] at htf ⊢
              omega
        · rw [if_neg hcr]
          exact hlpos
  | succ fuel ih =>
    intro l h
    have htf := takeField_rest_le l
    have hlpos : 0 < l.length := List.length_pos.mpr h
    unfold parseFieldsGo
    dsimp only
    cases hp : (takeField l).2 with
    | nil =>
      exact hlpos
    | cons c r2 =>
      rw [hp] at htf
      simp only [List.length_cons] at htf
      dsimp only
      by_cases hc : c = ','
      · rw [if_pos hc]
        cases r2 with
        | nil =>
          have h0 : (parseFieldsGo (fuel + 1) ([] : List Char)).2 = [] := rfl
          show (parseFieldsGo (fuel + 1) ([] : List Char)).2.length < l.length
          rw [h0]
          exact hlpos
        | cons d r3 =>
          have := ih (d :: r3) (by simp)
          show (parseFieldsGo (fuel + 1) (d :: r3)).2.length < l.length
          simp only [List.length_cons] at this htf ⊢
          omega
      · rw [if_neg hc]
        by_cases hcr : c = '\r'
        · rw [if_pos hcr]
          cases r2 with
          | nil =>
            exact hlpos
          | cons c2 r3 =>
            dsimp only
            by_cases hc2 : c2 = '\n'
            · rw [if_pos hc2]
              show r3.length < l.length
              simp only [List.length_cons] at htf
              omega
            · rw [if_neg hc2]
              show (c2 :: r3).length < l.length
              simp only [List.length_cons] at htf ⊢
              omega
        · rw [if_neg hcr]
          exact hlpos

theorem parseFields_rest_lt (l : List Char) (h : l ≠ []) :
    (parseFields l).2.length < l.length := by
  unfold parseFields
  obtain ⟨k, hk⟩ : ∃ k, l.length = k + 1 := by
    cases hl : l.length with
    | zero => exact absurd (List.length_eq_zero.mp hl) h
    | succ k => exact ⟨k, rfl⟩
  rw [show l.length + 1 = k + 1 + 1 from by omega]
  exact parseFieldsGo_rest_lt (k + 1) l h

theorem csvRecordsGo_nil (fuel : ℕ) : csvRecordsGo fuel [] = [] := by
  cases fuel <;> rfl

theorem csvRecordsGo_ne_nil (fuel : ℕ) (l : List Char) (h : l ≠ []) :
    csvRecordsGo (fuel + 1) l =
      (parseFields l).1 :: csvRecordsGo fuel (parseFields l).2 := by
  cases l with
  | nil => exact absurd rfl h
  | cons c t => rfl

theorem csvRecordsGo_fuel (fuel1 : ℕ) :
    ∀ fuel2 l, l.length < fuel1 → l.length < fuel2 →
      csvRecordsGo fuel1 l = csvRecordsGo fuel2 l := by
  induction fuel1 with
  | zero => intro fuel2 l h1 _; omega
  | succ f1 ih =>
    intro fuel2 l h1 h2
    obtain ⟨f2, rfl⟩ : ∃ f2, fuel2 = f2 + 1 := by
      cases fuel2 with
      | zero => omega
      | succ k => exact ⟨k, rfl⟩
    cases l with
    | nil => rw [csvRecordsGo_nil, csvRecordsGo_nil]
    | cons c t =>
      rw [csvRecordsGo_ne_nil f1 (c :: t) (by simp),
          csvRecordsGo_ne_nil f2 (c :: t) (by simp)]
      have hrest := parseFields_rest_lt (c :: t) (by simp)
      congr 1
      exact ih f2 _ (by omega) (by omega)

theorem joinSep_length_ge (cells : List (List Char)) (h : cells ≠ []) :
    cells.length ≤ (joinSep (cells.map csvQuoteField)).length + 1 := by
  induction cells with
  | nil => exact absurd rfl h
  | cons x t ih =>
    cases t with
    | nil => simp [joinSep]
    | cons y t2 =>
      have hJ : joinSep ((x :: y :: t2).map csvQuoteField) =
          csvQuoteField x ++ ',' :: joinSep ((y :: t2).map csvQuoteField) := rfl
      rw [hJ]
      have := ih (by simp)
      simp only [List.length_cons, List.length_append] at this ⊢
      omega

/-- One rendered CSV line followed by anything parses back into exactly its
cells, followed by the records of the remainder. -/
theorem csvRecords_line (cells : List (List Char)) (rest : List Char)
    (hne : cells ≠ []) :
    csvRecords (csvLine cells ++ rest) = cells :: csvRecords rest := by
  have hform : csvLine cells ++ rest =
      joinSep (cells.map csvQuoteField) ++ '\r' :: '\n' :: rest := by
    simp [csvLine]
  have hLne : csvLine cells ++ rest ≠ [] := by
    rw [hform]
    intro h
    rcases List.append_eq_nil.mp h with ⟨_, h2⟩
    cases h2
  have hfuel : cells.length ≤ (csvLine cells ++ rest).length + 1 := by
    have h1 := joinSep_length_ge cells hne
    rw [hform]
    simp only [List.length_append, List.length_cons]
    omega
  have hp : parseFields (csvLine cells ++ rest) = (cells, rest) := by
    unfold parseFields
    rw [hform] at hfuel ⊢
    exact parseFieldsGo_render cells rest _ hne hfuel
  unfold csvRecords
  have hlen : (csvLine cells ++ rest).length = (csvLine cells ++ rest).length - 1 + 1 := by
    have : 0 < (csvLine cells ++ rest).length := List.length_pos.mpr hLne
    omega
  rw [show (csvLine cells ++ rest).length + 1 =
      ((csvLine cells ++ rest).length - 1 + 1) + 1 by omega]
  rw [csvRecordsGo_ne_nil _ _ hLne, hp]
  dsimp only
  congr 1
  have hrest2 : rest.length + 2 ≤ (csvLine cells ++ rest).length := by
    rw [hform]
    simp only [List.length_append, List.length_cons]
    omega
  exact csvRecordsGo_fuel _ _ _ (by omega) (by omega)

theorem csvRecords_flatten (rows : List (List (List Char)))
    (h : ∀ cells ∈ rows, cells ≠ []) :
    csvRecords ((rows.map csvLine).flatten) = rows := by
  induction rows with
  | nil => rfl
  | cons cells t ih =>
    simp only [List.map_cons, List.flatten_cons]
    rw [csvRecords_line cells _ (h cells (by simp))]
    rw [ih (fun c hc => h c (by simp [hc]))]

/-- C9.  CSV column stability: for every event list the export parses back as
the header record `audio_file, time_sec, timecode, label, note,
logged_at_epoch` followed by exactly one record per event, in log order, each
holding precisely those six fields of the event (missing or `None` fields
rendered as the empty cell). -/
theorem C9_csv_column_stability (events : List (List (String × PyVal))) :
    csvRecords (events_to_csv_bytes events) =
      (["audio_file", "time_sec", "timecode", "label", "note",
        "logged_at_epoch"].map String.toList) ::
      events.map (fun r =>
        ["audio_file", "time_sec", "timecode", "label", "note",
          "logged_at_epoch"].map (fun fn => csvCellStr (dget r fn))) := by
  unfold events_to_csv_bytes
  have hmap : events.map (fun r => csvLine (rowCells r)) =
      (events.map rowCells).map csvLine := by
    rw [List.map_map]
    rfl
  rw [hmap, csvRecords_line _ _ (by simp [FIELDNAMES]),
      csvRecords_flatten (events.map rowCells) (by
        intro cells hc
        rcases List.mem_map.mp hc with ⟨r, _, rfl⟩
        simp [rowCells, FIELDNAMES])]
  rfl

/-! ### Persistence gateway (src lines 73-125)

A state file holds either successfully parsed JSON (`FileData.json v`) or
content on which reading/`json.loads` raises (`FileData.invalid`); a missing
file is `Option.none` in the path map.  `save_state` writes the temp sibling
then atomically renames it onto the target. -/

inductive FileData where
  | json : PyVal → FileData
  | invalid : FileData

def StateFS : Type := String → Option FileData

def emptyFS : StateFS := fun _ => Option.none

def fsUpdate (fs : StateFS) (p : String) (v : FileData) : StateFS :=
  fun q => if q = p then some v else fs q

def fsRemove (fs : StateFS) (p : String) : StateFS :=
  fun q => if q = p then Option.none else fs q

/-- Source `state_path`: `DATA_ROOT / user_key / "state.json"`. -/
def state_path (user_key : String) : String := "data/" ++ user_key ++ "/state.json"

/-- Path `p.with_suffix(".json.tmp")` of the state path. -/
def tmp_state_path (user_key : String) : String :=
  "data/" ++ user_key ++ "/state.json.tmp"

def default_lp_items : List (String × PyVal) :=
  [("audio_file", PyVal.none), ("time_sec", PyVal.float 0)]

/-- Source `default_state()`. -/
def default_state : PyVal :=
  PyVal.dict [("events", PyVal.list []), ("last_played", PyVal.dict default_lp_items)]

/-- Step `if not isinstance(data.get("last_played"), dict): data["last_played"] = \x7b...\x7d` of the loader. -/
def repair_lp_fix (d : List (String × PyVal)) : List (String × PyVal) :=
  match dget d "last_played" with
  | some (PyVal.dict _) => d
  | _ => dset d "last_played" (PyVal.dict default_lp_items)

/-- The dict behind `data["last_played"]` (guaranteed to exist after
`repair_lp_fix`; the fallback arm is unreachable there). -/
def lp_items_of (d : List (String × PyVal)) : List (String × PyVal) :=
  match dget d "last_played" with
  | some (PyVal.dict l) => l
  | _ => default_lp_items

/-- Step `if not isinstance(data.get("events"), list): data["events"] = []` of the loader. -/
def repair_events_fix (d : List (String × PyVal)) : List (String × PyVal) :=
  match dget d "events" with
  | some (PyVal.list _) => d
  | _ => dset d "events" (PyVal.list [])

/-- The body of `load_state`'s `try` block on successfully parsed dict
`data`: `setdefault` each top-level default, coerce `last_played` to a dict,
`setdefault` its two fields, coerce `events` to a list. -/
def repair_loaded (kvs : List (String × PyVal)) : PyVal :=
  let d2 := dsetdefault (dsetdefault kvs "events" (PyVal.list []))
              "last_played" (PyVal.dict default_lp_items)
  let d3 := repair_lp_fix d2
  let lp2 := dsetdefault (dsetdefault (lp_items_of d3) "audio_file" PyVal.none)
               "time_sec" (PyVal.float 0)
  let d4 := dset d3 "last_played" (PyVal.dict lp2)
  PyVal.dict (repair_events_fix d4)

/-- Source `load_state`: default on a missing file; default when reading or parsing
raises (the broad `except`); default when the parsed JSON is not a dict
(`data.setdefault` raises `AttributeError`, caught by the same `except`);
otherwise the repaired dict. -/
def load_state (key : String) (fs : StateFS) : PyVal :=
  match fs (state_path key) with
  | Option.none => default_state
  | some FileData.invalid => default_state
  | some (FileData.json v) =>
    match v with
    | PyVal.dict kvs => repair_loaded kvs
    | _ => default_state

/-- Source `save_state`: write the serialized state to the temp sibling, then
atomically rename it over the target. -/
def save_state (key : String) (st : PyVal) (fs : StateFS) : StateFS :=
  let tmp := tmp_state_path key
  let fs1 := fsUpdate fs tmp (FileData.json st)
  fsUpdate (fsRemove fs1 tmp) (state_path key) (FileData.json st)

/-! ### Lemmas about the repair steps -/

theorem repair_lp_fix_spec (d : List (String × PyVal)) :
    ∃ l, dget (repair_lp_fix d) "last_played" = some (PyVal.dict l) ∧
      lp_items_of (repair_lp_fix d) = l := by
  unfold repair_lp_fix
  cases hB : dget d "last_played" with
  | none =>
    refine ⟨default_lp_items, ?_, ?_⟩
    · exact dget_dset_self d "last_played" _
    · unfold lp_items_of
      rw [dget_dset_self d "last_played" _]
  | some w =>
    cases w with
    | dict l =>
      refine ⟨l, hB, ?_⟩
      unfold lp_items_of
      rw [hB]
    | none =>
      refine ⟨default_lp_items, dget_dset_self d "last_played" _, ?_⟩
      unfold lp_items_of
      rw [dget_dset_self d "last_played" _]
    | bool b =>
      refine ⟨default_lp_items, dget_dset_self d "last_played" _, ?_⟩
      unfold lp_items_of
      rw [dget_dset_self d "last_played" _]
    | int n =>
      refine ⟨default_lp_items, dget_dset_self d "last_played" _, ?_⟩
      unfold lp_items_of
      rw [dget_dset_self d "last_played" _]
    | float q =>
      refine ⟨default_lp_items, dget_dset_self d "last_played" _, ?_⟩
      unfold lp_items_of
      rw [dget_dset_self d "last_played" _]
    | str s =>
      refine ⟨default_lp_items, dget_dset_self d "last_played" _, ?_⟩
      unfold lp_items_of
      rw [dget_dset_self d "last_played" _]
    | list xs =>
      refine ⟨default_lp_items, dget_dset_self d "last_played" _, ?_⟩
      unfold lp_items_of
      rw [dget_dset_self d "last_played" _]

theorem repair_lp_fix_events (d : List (String × PyVal)) :
    dget (repair_lp_fix d) "events" = dget d "events" := by
  unfold repair_lp_fix
  cases hB : dget d "last_played" with
  | none => exact dget_dset_ne d "last_played" "events" _ (by decide)
  | some w =>
    cases w <;>
      first
        | rfl
        | exact dget_dset_ne d "last_played" "events" _ (by decide)

theorem repair_events_fix_spec (d : List (String × PyVal)) :
    ∃ evs, dget (repair_events_fix d) "events" = some (PyVal.list evs) := by
  unfold repair_events_fix
  cases hB : dget d "events" with
  | none => exact ⟨[], dget_dset_self d "events" _⟩
  | some w =>
    cases w with
    | list xs => exact ⟨xs, hB⟩
    | none => exact ⟨[], dget_dset_self d "events" _⟩
    | bool b => exact ⟨[], dget_dset_self d "events" _⟩
    | int n => exact ⟨[], dget_dset_self d "events" _⟩
    | float q => exact ⟨[], dget_dset_self d "events" _⟩
    | str s => exact ⟨[], dget_dset_self d "events" _⟩
    | dict kvs => exact ⟨[], dget_dset_self d "events" _⟩

theorem repair_events_fix_lp (d : List (String × PyVal)) :
    dget (repair_events_fix d) "last_played" = dget d "last_played" := by
  unfold repair_events_fix
  cases hB : dget d "events" with
  | none => exact dget_dset_ne d "events" "last_played" _ (by decide)
  | some w =>
    cases w <;>
      first
        | rfl
        | exact dget_dset_ne d "events" "last_played" _ (by decide)

/-- The repaired load result always has an `"events"` list and a
`"last_played"` dict with both expected keys, whatever the parsed dict was. -/
theorem repair_loaded_shape (kvs : List (String × PyVal)) :
    ∃ d evs lp, repair_loaded kvs = PyVal.dict d ∧
      dget d "events" = some (PyVal.list evs) ∧
      dget d "last_played" = some (PyVal.dict lp) ∧
      (dget lp "audio_file").isSome = true ∧
      (dget lp "time_sec").isSome = true := by
  unfold repair_loaded
  dsimp only
  obtain ⟨l, hl, hlp⟩ := repair_lp_fix_spec
    (dsetdefault (dsetdefault kvs "events" (PyVal.list []))
      "last_played" (PyVal.dict default_lp_items))
  rw [hlp]
  set d3 := repair_lp_fix (dsetdefault (dsetdefault kvs "events" (PyVal.list []))
      "last_played" (PyVal.dict default_lp_items)) with hd3
  set lp2 := dsetdefault (dsetdefault l "audio_file" PyVal.none)
      "time_sec" (PyVal.float 0) with hlp2
  obtain ⟨evs, hevs⟩ := repair_events_fix_spec (dset d3 "last_played" (PyVal.dict lp2))
  refine ⟨_, evs, lp2, rfl, hevs, ?_, ?_, ?_⟩
  · rw [repair_events_fix_lp, dget_dset_self]
  · have h1 : (dget (dsetdefault l "audio_file" PyVal.none) "audio_file").isSome =
        true := dget_dsetdefault_self l "audio_file" PyVal.none
    rw [hlp2, dget_dsetdefault_ne _ "time_sec" "audio_file" _ (by decide)]
    exact h1
  · rw [hlp2]
    exact dget_dsetdefault_self _ "time_sec" _

/-- On a well-formed state the repair pass is the identity. -/
theorem repair_loaded_of_wf (kvs lp : List (String × PyVal)) (evs : List PyVal)
    (va vt : PyVal)
    (hE : dget kvs "events" = some (PyVal.list evs))
    (hL : dget kvs "last_played" = some (PyVal.dict lp))
    (hA : dget lp "audio_file" = some va)
    (hT : dget lp "time_sec" = some vt) :
    repair_loaded kvs = PyVal.dict kvs := by
  unfold repair_loaded
  dsimp only
  rw [dsetdefault_of_mem kvs "events" _ _ hE,
      dsetdefault_of_mem kvs "last_played" _ _ hL]
  have hfix : repair_lp_fix kvs = kvs := by
    unfold repair_lp_fix
    rw [hL]
  rw [hfix]
  have hlp : lp_items_of kvs = lp := by
    unfold lp_items_of
    rw [hL]
  rw [hlp, dsetdefault_of_mem lp "audio_file" _ _ hA,
      dsetdefault_of_mem lp "time_sec" _ _ hT,
      dset_eq_self kvs "last_played" _ hL]
  have hfix2 : repair_events_fix kvs = kvs := by
    unfold repair_events_fix
    rw [hE]
  rw [hfix2]

/-- C2.  Persistence fidelity: saving a well-formed state (a dict holding an
`"events"` list and a `"last_played"` dict with both `"audio_file"` and
`"time_sec"`) and loading it back under the same scope key returns exactly
the saved state. -/
theorem C2_persistence_fidelity (key : String) (fs : StateFS)
    (kvs lp : List (String × PyVal)) (evs : List PyVal) (va vt : PyVal)
    (hE : dget kvs "events" = some (PyVal.list evs))
    (hL : dget kvs "last_played" = some (PyVal.dict lp))
    (hA : dget lp "audio_file" = some va)
    (hT : dget lp "time_sec" = some vt) :
    load_state key (save_state key (PyVal.dict kvs) fs) = PyVal.dict kvs := by
  unfold load_state save_state fsUpdate
  rw [if_pos rfl]
  exact repair_loaded_of_wf kvs lp evs va vt hE hL hA hT

/-- Witness for C2: round-trip of the default state under key `"k"`. -/
theorem C2_persistence_fidelity_witness :
    load_state "k" (save_state "k"
      (PyVal.dict [("events", PyVal.list []),
        ("last_played", PyVal.dict default_lp_items)]) emptyFS) =
    PyVal.dict [("events", PyVal.list []),
      ("last_played", PyVal.dict default_lp_items)] :=
  C2_persistence_fidelity "k" emptyFS _ default_lp_items [] PyVal.none
    (PyVal.float 0) rfl rfl rfl rfl

/-- C3.  Corrupt-or-missing-state resilience: when the state file is absent,
or holds bytes on which reading/parsing raises, `load_state` returns the
default state (empty events, `last_played` with `audio_file` `None` and
`time_sec` `0.0`); the model of `load_state` is a total function, reflecting
that the broad `except` turns every failure into this default rather than an
exception. -/
theorem C3_corrupt_missing_resilience (key : String) (fs : StateFS)
    (h : fs (state_path key) = Option.none ∨
      fs (state_path key) = some FileData.invalid) :
    load_state key fs = default_state := by
  unfold load_state
  rcases h with h | h <;> rw [h]

/-- Witness for C3: a missing file and an invalid file, both under key `"k"`. -/
theorem C3_corrupt_missing_resilience_witness :
    load_state "k" emptyFS = default_state ∧
    load_state "k" (fsUpdate emptyFS (state_path "k") FileData.invalid) =
      default_state :=
  ⟨C3_corrupt_missing_resilience "k" emptyFS (Or.inl rfl),
   C3_corrupt_missing_resilience "k" _ (Or.inr (by
    unfold fsUpdate
    rw [if_pos rfl]))⟩

/-- C10.  Loaded-state shape invariant: whatever the state file holds —
including valid JSON whose fields have the wrong type — `load_state` returns
a dict whose `"events"` is a list and whose `"last_played"` is a dict
containing both `"audio_file"` and `"time_sec"`; concretely, a file holding
`{"events": "oops", "last_played": 3}` loads as the default state even
though it parsed successfully. -/
theorem C10_loaded_state_shape :
    (∀ (key : String) (fs : StateFS),
      ∃ d evs lp, load_state key fs = PyVal.dict d ∧
        dget d "events" = some (PyVal.list evs) ∧
        dget d "last_played" = some (PyVal.dict lp) ∧
        (dget lp "audio_file").isSome = true ∧
        (dget lp "time_sec").isSome = true) ∧
    load_state "k" (fsUpdate emptyFS (state_path "k")
      (FileData.json (PyVal.dict [("events", PyVal.str "oops".toList),
        ("last_played", PyVal.int 3)]))) = default_state := by
  constructor
  · intro key fs
    have hdef : ∃ d evs lp, default_state = PyVal.dict d ∧
        dget d "events" = some (PyVal.list evs) ∧
        dget d "last_played" = some (PyVal.dict lp) ∧
        (dget lp "audio_file").isSome = true ∧
        (dget lp "time_sec").isSome = true := by
      refine ⟨_, [], default_lp_items, rfl, rfl, rfl, rfl, rfl⟩
    unfold load_state
    cases fs (state_path key) with
    | none => exact hdef
    | some fd =>
      cases fd with
      | invalid => exact hdef
      | json v =>
        cases v with
        | dict kvs => exact repair_loaded_shape kvs
        | none => exact hdef
        | bool b => exact hdef
        | int n => exact hdef
        | float q => exact hdef
        | str s => exact hdef
        | list xs => exact hdef
  · rfl

/-! ### Identity resolver (`safe_key`, src lines 73-79)

Python's `ch.isalnum()` is Unicode-aware: besides `[A-Za-z0-9]` it accepts
every alphanumeric code point, e.g. `é`.  `pyIsAlnum` models it exactly for
all code points below U+0100 (ASCII plus the Latin-1 Supplement, whose
alphanumerics are `ª µ º ² ³ ¹ ¼ ½ ¾`, `À`-`Ö`, `Ø`-`ö` and `ø`-`ÿ`, i.e.
everything in U+00C0-U+00FF except `×` and `÷`); code points at U+0100 and
above are treated as non-alphanumeric, an under-approximation that only
makes `safe_key` drop more and is not relied on by any theorem. -/

/-- Python `str.isalnum` of a single character, exact below U+0100. -/
def pyIsAlnum (c : Char) : Bool :=
  c.isAlphanum ||
  c.toNat = 0xAA || c.toNat = 0xB5 || c.toNat = 0xBA ||
  c.toNat = 0xB2 || c.toNat = 0xB3 || c.toNat = 0xB9 ||
  c.toNat = 0xBC || c.toNat = 0xBD || c.toNat = 0xBE ||
  (0xC0 ≤ c.toNat && c.toNat ≤ 0xD6) ||
  (0xD8 ≤ c.toNat && c.toNat ≤ 0xF6) ||
  (0xF8 ≤ c.toNat && c.toNat ≤ 0xFF)

/-- Source `safe_key`: strip, keep only alphanumerics and `-`/`_`, truncate to 64. -/
def safe_key (s : List Char) : List Char :=
  ((pyStrip s).filter (fun c => pyIsAlnum c || c = '-' || c = '_')).take 64

/-- The `Continue` button handler (src lines 184-190): an empty sanitized
key is invalid (the gate stays put with an error), otherwise the key is
committed to the query params. -/
def continue_gate (entered : List Char) : Option (List Char) :=
  let k := safe_key entered
  if k.isEmpty then Option.none else some k

theorem mem_of_mem_dropWhile {p : Char → Bool} {l : List Char} {c : Char}
    (h : c ∈ l.dropWhile p) : c ∈ l := by
  induction l with
  | nil => simp at h
  | cons a t ih =>
    rw [List.dropWhile_cons] at h
    by_cases hp : p a = true
    · rw [if_pos hp] at h
      exact List.mem_cons_of_mem a (ih h)
    · rwa [if_neg hp] at h

theorem mem_of_mem_pyStrip {l : List Char} {c : Char} (h : c ∈ pyStrip l) :
    c ∈ l := by
  unfold pyStrip at h
  rw [List.mem_reverse] at h
  have h2 := mem_of_mem_dropWhile h
  rw [List.mem_reverse] at h2
  exact mem_of_mem_dropWhile h2

/-- C8 counterexample.  The claim says `sanitize` keeps only characters from
`[A-Za-z0-9_-]`; Python's `str.isalnum` also accepts non-ASCII
alphanumerics, so `safe_key "é" = "é"`, whose character is outside that
set. -/
theorem C8_charset_counterexample :
    safe_key ['é'] = ['é'] ∧
    ¬(('A' ≤ 'é' ∧ 'é' ≤ 'Z') ∨ ('a' ≤ 'é' ∧ 'é' ≤ 'z') ∨
      ('0' ≤ 'é' ∧ 'é' ≤ '9') ∨ 'é' = '-' ∨ 'é' = '_') := by
  constructor
  · decide
  · decide

/-- C8 (amended).  Identity sanitization: `safe_key` keeps only characters
Python's `str.isalnum` accepts plus `-` and `_` — on ASCII input that is
exactly the set `[A-Za-z0-9_-]`, but non-ASCII alphanumerics pass the filter
too — truncates the result to at most 64 characters, maps `" dw 25!dec "`
to `"dw25dec"`, and the gate treats exactly the empty sanitized key as
invalid. -/
theorem C8_identity_sanitization (s : List Char) :
    (∀ c ∈ safe_key s, pyIsAlnum c = true ∨ c = '-' ∨ c = '_') ∧
    ((∀ c ∈ s, c.toNat < 128) → ∀ c ∈ safe_key s,
      ('A' ≤ c ∧ c ≤ 'Z') ∨ ('a' ≤ c ∧ c ≤ 'z') ∨ ('0' ≤ c ∧ c ≤ '9') ∨
        c = '-' ∨ c = '_') ∧
    (safe_key s).length ≤ 64 ∧
    safe_key " dw 25!dec ".toList = "dw25dec".toList ∧
    (continue_gate s = Option.none ↔ safe_key s = []) := by
  refine ⟨?_, ?_, ?_, by decide, ?_⟩
  · intro c hc
    have hc2 : c ∈ (pyStrip s).filter
        (fun c => pyIsAlnum c || c = '-' || c = '_') := List.mem_of_mem_take hc
    have hp := List.of_mem_filter hc2
    simp only [Bool.or_eq_true, decide_eq_true_eq] at hp
    tauto
  · intro hA c hc
    have hc2 : c ∈ (pyStrip s).filter
        (fun c => pyIsAlnum c || c = '-' || c = '_') := List.mem_of_mem_take hc
    have hmem : c ∈ s := mem_of_mem_pyStrip (List.mem_of_mem_filter hc2)
    have hlt : c.toNat < 128 := hA c hmem
    have hp := List.of_mem_filter hc2
    simp only [Bool.or_eq_true, decide_eq_true_eq] at hp
    rcases hp with (ha | hd) | h
    · by_cases hAl : c.isAlphanum = true
      · have ha2 : ('A' ≤ c ∧ c ≤ 'Z') ∨ ('a' ≤ c ∧ c ≤ 'z') ∨
            ('0' ≤ c ∧ c ≤ '9') := by
          simp only [Char.isAlphanum, Char.isAlpha, Char.isDigit, Char.isUpper,
            Char.isLower, Bool.or_eq_true, Bool.and_eq_true,
            decide_eq_true_eq] at hAl
          rcases hAl with (⟨h1, h2⟩ | ⟨h1, h2⟩) | ⟨h1, h2⟩
          · exact Or.inl ⟨h1, h2⟩
          · exact Or.inr (Or.inl ⟨h1, h2⟩)
          · exact Or.inr (Or.inr ⟨h1, h2⟩)
        rcases ha2 with h2 | h2 | h2
        · exact Or.inl h2
        · exact Or.inr (Or.inl h2)
        · exact Or.inr (Or.inr (Or.inl h2))
      · have hAl2 : c.isAlphanum = false := by
          cases hb : c.isAlphanum with
          | true => exact absurd hb hAl
          | false => rfl
        have h170 : 170 ≤ c.toNat := by
          simp only [pyIsAlnum, hAl2, Bool.false_or, Bool.or_eq_true,
            Bool.and_eq_true, decide_eq_true_eq] at ha
          omega
        exact absurd hlt (by omega)
    · exact Or.inr (Or.inr (Or.inr (Or.inl hd)))
    · exact Or.inr (Or.inr (Or.inr (Or.inr h)))
  · exact List.length_take_le 64 _
  · unfold continue_gate
    dsimp only
    constructor
    · intro h
      by_cases he : safe_key s = []
      · exact he
      · rw [if_neg (by
          cases hk : safe_key s with
          | nil => exact absurd hk he
          | cons a b => simp)] at h
        cases h
    · intro h
      rw [h]
      rfl

/-- Witness for C8 (the theorem's conjuncts carry bounded quantifiers and an
ASCII-input hypothesis): the concrete scenario value and the gate behaviour
on the empty input, extracted through the theorem, plus the ASCII charset
conjunct instantiated at a concrete ASCII input where the bounded
quantifiers are discharged by evaluation. -/
theorem C8_identity_sanitization_witness :
    safe_key " dw 25!dec ".toList = "dw25dec".toList ∧
    (continue_gate [] = Option.none ↔ safe_key [] = []) ∧
    (('A' ≤ 'd' ∧ 'd' ≤ 'Z') ∨ ('a' ≤ 'd' ∧ 'd' ≤ 'z') ∨
      ('0' ≤ 'd' ∧ 'd' ≤ '9') ∨ 'd' = '-' ∨ 'd' = '_') :=
  ⟨(C8_identity_sanitization []).2.2.2.1,
   (C8_identity_sanitization []).2.2.2.2,
   (C8_identity_sanitization " dw 25!dec ".toList).2.1 (by decide) 'd'
     (by decide)⟩

/-! ### Event log operations (append / undo / clear, src lines 316-424) -/

/-- Append `st.session_state["events"].append(e)`. -/
def append_event (log : List PyVal) (e : PyVal) : List PyVal := log ++ [e]

/-- The `Undo last` handler: `if ... and st.session_state["events"]:
st.session_state["events"].pop()` — a pop guarded by non-emptiness, so the
empty log is left untouched rather than raising. -/
def undo_last (log : List PyVal) : List PyVal :=
  if log.isEmpty then log else log.dropLast

/-- The `Clear all` handler: `st.session_state["events"] = []`. -/
def clear_all (_log : List PyVal) : List PyVal := []

/-- C6.  Append/undo inverse: undoing after an append restores exactly the
prior log; undo on the empty log is a no-op (not an error); and after a
clear, any number of undos leaves the log empty. -/
theorem C6_append_undo_inverse (log : List PyVal) (e : PyVal) (n : ℕ) :
    undo_last (append_event log e) = log ∧
    undo_last [] = [] ∧
    undo_last^[n] (clear_all log) = [] := by
  refine ⟨?_, rfl, ?_⟩
  · unfold undo_last append_event
    rw [if_neg (by simp)]
    exact List.dropLast_concat
  · unfold clear_all
    induction n with
    | zero => rfl
    | succ n ih => rw [Function.iterate_succ_apply, show undo_last [] = [] from rfl, ih]

/-! ### Audio identity and store (src lines 130-144)

`_hash_upload` is `hashlib.sha1(name.encode("utf-8") + b"\0" + data)
.hexdigest()[:16]`; SHA-1 is embedded in full (bytes as naturals below 256,
32-bit words as naturals reduced mod `2^32`). -/

def utf8EncodeChar (c : Char) : List ℕ :=
  let n := c.toNat
  if n < 0x80 then [n]
  else if n < 0x800 then [0xC0 ||| (n >>> 6), 0x80 ||| (n &&& 0x3F)]
  else if n < 0x10000 then
    [0xE0 ||| (n >>> 12), 0x80 ||| ((n >>> 6) &&& 0x3F), 0x80 ||| (n &&& 0x3F)]
  else
    [0xF0 ||| (n >>> 18), 0x80 ||| ((n >>> 12) &&& 0x3F),
     0x80 ||| ((n >>> 6) &&& 0x3F), 0x80 ||| (n &&& 0x3F)]

def utf8Encode (s : List Char) : List ℕ := (s.map utf8EncodeChar).flatten

def rotl32 (x k : ℕ) : ℕ := ((x <<< k) ||| (x >>> (32 - k))) % 4294967296

def sha1K (i : ℕ) : ℕ :=
  if i < 20 then 0x5A827999
  else if i < 40 then 0x6ED9EBA1
  else if i < 60 then 0x8F1BBCDC
  else 0xCA62C1D6

def sha1F (i b c d : ℕ) : ℕ :=
  if i < 20 then (b &&& c) ||| ((b ^^^ 4294967295) &&& d)
  else if i < 40 then b ^^^ c ^^^ d
  else if i < 60 then (b &&& c) ||| (b &&& d) ||| (c &&& d)
  else b ^^^ c ^^^ d

/-- Extend the 16 block words to the 80-word schedule. -/
def sha1Schedule (ws : List ℕ) : List ℕ :=
  (List.range 80).foldl (fun acc i =>
    if i < 16 then acc ++ [ws.getD i 0]
    else acc ++ [rotl32 ((acc.getD (i - 3) 0) ^^^ (acc.getD (i - 8) 0) ^^^
      (acc.getD (i - 14) 0) ^^^ (acc.getD (i - 16) 0)) 1]) []

structure Sha1St where
  a : ℕ
  b : ℕ
  c : ℕ
  d : ℕ
  e : ℕ

def sha1Round (st : Sha1St) (i wi : ℕ) : Sha1St :=
  ⟨(rotl32 st.a 5 + sha1F i st.b st.c st.d + st.e + sha1K i + wi) % 4294967296,
   st.a, rotl32 st.b 30, st.c, st.d⟩

def bytesToWords : List ℕ → List ℕ
  | b0 :: b1 :: b2 :: b3 :: rest =>
    (((b0 % 256) <<< 24) ||| ((b1 % 256) <<< 16) ||| ((b2 % 256) <<< 8) ||| (b3 % 256))
      :: bytesToWords rest
  | _ => []

def sha1Compress (h : Sha1St) (block : List ℕ) : Sha1St :=
  let w := sha1Schedule (bytesToWords block)
  let st := (List.range 80).foldl (fun st i => sha1Round st i (w.getD i 0)) h
  ⟨(h.a + st.a) % 4294967296, (h.b + st.b) % 4294967296,
   (h.c + st.c) % 4294967296, (h.d + st.d) % 4294967296,
   (h.e + st.e) % 4294967296⟩

/-- Big-endian 8-byte encoding of the bit length. -/
def beBytes64 (n : ℕ) : List ℕ :=
  (List.range 8).map (fun i => (n >>> (56 - 8 * i)) % 256)

/-- Merkle-Damgård padding: `0x80`, zeros to 56 mod 64, 64-bit bit length. -/
def sha1Pad (msg : List ℕ) : List ℕ :=
  let L := msg.length
  msg ++ 0x80 :: List.replicate ((120 - (L + 1) % 64) % 64) 0 ++ beBytes64 (8 * L)

def chunks64Go : ℕ → List ℕ → List (List ℕ)
  | 0, _ => []
  | _ + 1, [] => []
  | fuel + 1, l => l.take 64 :: chunks64Go fuel (l.drop 64)

def chunks64 (l : List ℕ) : List (List ℕ) := chunks64Go (l.length + 1) l

def toHexDigit (n : ℕ) : Char :=
  if n < 10 then Char.ofNat (48 + n) else Char.ofNat (87 + n)

def word32ToHex (w : ℕ) : List Char :=
  (List.range 8).map (fun i => toHexDigit ((w >>> (28 - 4 * i)) % 16))

/-- Lowercase hex digest of SHA-1 over a byte sequence. -/
def sha1Hex (msg : List ℕ) : List Char :=
  let blocks := chunks64 (sha1Pad msg)
  let h := blocks.foldl sha1Compress
    ⟨0x67452301, 0xEFCDAB89, 0x98BADCFE, 0x10325476, 0xC3D2E1F0⟩
  word32ToHex h.a ++ word32ToHex h.b ++ word32ToHex h.c ++
    word32ToHex h.d ++ word32ToHex h.e

/-- Source `_hash_upload(name, data)`. -/
def _hash_upload (name : List Char) (data : List ℕ) : List Char :=
  (sha1Hex (utf8Encode name ++ 0 :: data)).take 16

/-- Python `Path(name).suffix`: the final component's extension, empty for
dotfiles, leading dots and trailing-dot-only names. -/
def pathSuffix (name : List Char) : List Char :=
  let base := (splitChar '/' name).getLastD []
  match (base.reverse.findIdx? (fun c => c = '.')) with
  | Option.none => []
  | some j =>
    let i := base.length - 1 - j
    if 0 < i ∧ i < base.length - 1 then base.drop i else []

/-- The audio blob store: a map from paths to byte contents. -/
def AudioFS : Type := List Char → Option (List ℕ)

def afsUpdate (fs : AudioFS) (p : List Char) (v : List ℕ) : AudioFS :=
  fun q => if q = p then some v else fs q

/-- Source `write_uploaded_to_tmp`: derive the content id, place the bytes at the
deterministic temp path unless a file already exists there, and return
`(name, path, id)` together with the updated store. -/
def write_uploaded_to_tmp (name : List Char) (data : List ℕ) (fs : AudioFS) :
    (List Char × List Char × List Char) × AudioFS :=
  let suffix0 := pathSuffix name
  let suffix := if suffix0 = [] then ".mp3".toList else suffix0
  let audio_id := _hash_upload name data
  let out_path := "/tmp/proofing_audio_".toList ++ audio_id ++ suffix.map Char.toLower
  let fs2 := if fs out_path = Option.none then afsUpdate fs out_path data else fs
  ((name, out_path, audio_id), fs2)

/-- C7.  Idempotent audio store: storing the same `(name, bytes)` twice
yields the same `audio_id` and the same deterministic path, after the first
call the file exists at that path, and the second call performs no write —
the store (hence the stored content) is unchanged by the repeat call. -/
theorem C7_idempotent_store (name : List Char) (data : List ℕ) (fs : AudioFS) :
    (write_uploaded_to_tmp name data
        (write_uploaded_to_tmp name data fs).2).1.2.2 =
      (write_uploaded_to_tmp name data fs).1.2.2 ∧
    (write_uploaded_to_tmp name data
        (write_uploaded_to_tmp name data fs).2).1.2.1 =
      (write_uploaded_to_tmp name data fs).1.2.1 ∧
    ((write_uploaded_to_tmp name data fs).2
        (write_uploaded_to_tmp name data fs).1.2.1).isSome = true ∧
    (write_uploaded_to_tmp name data
        (write_uploaded_to_tmp name data fs).2).2 =
      (write_uploaded_to_tmp name data fs).2 := by
  have store_guard : ∀ (fs2 : AudioFS) (p : List Char) (d : List ℕ),
      ((if fs2 p = Option.none then afsUpdate fs2 p d else fs2) p).isSome = true := by
    intro fs2 p d
    cases hfs : fs2 p with
    | none =>
      rw [if_pos rfl]
      unfold afsUpdate
      rw [if_pos rfl]
      rfl
    | some v =>
      rw [if_neg (fun hc => Option.noConfusion hc), hfs]
      rfl
  have store_noop : ∀ (fs2 : AudioFS) (p : List Char) (d : List ℕ),
      (fs2 p).isSome = true →
      (if fs2 p = Option.none then afsUpdate fs2 p d else fs2) = fs2 := by
    intro fs2 p d h
    cases hfs : fs2 p with
    | none =>
      rw [hfs] at h
      cases h
    | some v => rw [if_neg (fun hc => Option.noConfusion hc)]
  refine ⟨rfl, rfl, ?_, ?_⟩
  · unfold write_uploaded_to_tmp
    dsimp only
    exact store_guard fs _ data
  · unfold write_uploaded_to_tmp
    dsimp only
    exact store_noop _ _ data (store_guard fs _ data)

/-! ### Bulk edit rebuild (`rebuild_events_from_frame`, src lines 382-403)

Rows of the edited frame are modelled as dicts; `r.get(k, default)` is
`rGetD`.  The `try: sec = float(... or 0.0) except: 0.0` coercion is
`floatCoerceOr0`; the *unguarded* `float(r.get("logged_at_epoch", 0.0) or
0.0)` can raise, so the row rebuild is `Option`-valued and `mapM` propagates
that exception. -/

/-- Python truthiness of the modelled values. -/
def pyTruthy : PyVal → Bool
  | PyVal.none => false
  | PyVal.bool b => b
  | PyVal.int n => decide (n ≠ 0)
  | PyVal.float q => decide (q ≠ 0)
  | PyVal.str s => !s.isEmpty
  | PyVal.list xs => !xs.isEmpty
  | PyVal.dict d => !d.isEmpty

/-- Python `str()` of a scalar value (container repr is outside the model). -/
def pyStrOfVal : PyVal → List Char
  | PyVal.none => "None".toList
  | PyVal.bool b => if b then "True".toList else "False".toList
  | PyVal.int n => intRepr n
  | PyVal.float q => reprFloat q
  | PyVal.str s => s
  | PyVal.list _ => "<container-repr-not-modelled>".toList
  | PyVal.dict _ => "<container-repr-not-modelled>".toList

/-- Python `str(v or "")`. -/
def strOr (v : PyVal) : List Char := if pyTruthy v then pyStrOfVal v else []

/-- Python `float(v)`; `Option.none` models a raised `TypeError`/`ValueError`. -/
def pyFloatOfVal? : PyVal → Option ℚ
  | PyVal.bool b => some (if b then 1 else 0)
  | PyVal.int n => some ((n : ℚ))
  | PyVal.float q => some q
  | PyVal.str s => pyFloat? s
  | _ => Option.none

/-- Python `try: float(v or 0.0) except Exception: 0.0`. -/
def floatCoerceOr0 (v : PyVal) : ℚ :=
  if pyTruthy v then (pyFloatOfVal? v).getD 0 else 0

/-- Python `float(v or 0.0)` with no surrounding `try` (may raise). -/
def epochCoerce? (v : PyVal) : Option ℚ :=
  if pyTruthy v then pyFloatOfVal? v else some 0

/-- Python `r.get(k, default)` on a frame row. -/
def rGetD (r : List (String × PyVal)) (k : String) (d : PyVal) : PyVal :=
  (dget r k).getD d

/-- One iteration of the `rebuild_events_from_frame` loop body. -/
def rebuild_event_row? (r : List (String × PyVal)) :
    Option (List (String × PyVal)) :=
  let tc := pyStrip (strOr (rGetD r "timecode" (PyVal.str [])))
  let sec : ℚ :=
    match parse_timecode_to_seconds tc with
    | some s => s
    | Option.none => floatCoerceOr0 (rGetD r "time_sec" (PyVal.float 0))
  (epochCoerce? (rGetD r "logged_at_epoch" (PyVal.float 0))).map (fun ep =>
    [("audio_file", PyVal.str (strOr (rGetD r "audio_file" (PyVal.str [])))),
     ("time_sec", PyVal.float sec),
     ("timecode", PyVal.str (fmt_time_hh sec 3)),
     ("label", PyVal.str (strOr (rGetD r "label" (PyVal.str [])))),
     ("note", PyVal.str (strOr (rGetD r "note" (PyVal.str [])))),
     ("logged_at_epoch", PyVal.float ep)])

/-- Source `rebuild_events_from_frame`. -/
def rebuild_events_from_frame (frame : List (List (String × PyVal))) :
    Option (List (List (String × PyVal))) :=
  frame.mapM rebuild_event_row?

/-! ### The label-click handler (src lines 313-332) -/

/-- The event dict appended by the `clicked_label` handler. -/
def log_event_entry (audio_name : List Char) (last_time : ℚ)
    (label noteInput : List Char) (epoch : ℚ) : List (String × PyVal) :=
  [("audio_file", PyVal.str audio_name),
   ("time_sec", PyVal.float last_time),
   ("timecode", PyVal.str (fmt_time_hh last_time 3)),
   ("label", PyVal.str label),
   ("note", PyVal.str (pyStrip noteInput)),
   ("logged_at_epoch", PyVal.float epoch)]

/-- The `clicked_label` handler: append the event and record the resume
position in `last_played`. -/
def clicked_label_update (events : List (List (String × PyVal)))
    (audio_name : List Char) (last_time : ℚ) (label noteInput : List Char)
    (epoch : ℚ) : List (List (String × PyVal)) × PyVal :=
  (events ++ [log_event_entry audio_name last_time label noteInput epoch],
   PyVal.dict [("audio_file", PyVal.str audio_name),
     ("time_sec", PyVal.float last_time)])

/-! ### Concrete evaluations of the codec at the scenario values -/

theorem fmt_eval_125 : fmt_time_hh (25/2) 3 = "00:00:12.500".toList := by
  have hm : fmtM (25/2) = 0 := by norm_num [fmtM]
  have hn : fmtN (25/2) 3 = 12500 := by
    norm_num [fmtN, hm, roundHalfEven]
    decide
  rw [fmt_time_hh_eq, hm, hn]
  decide

theorem fmt_eval_sixty : fmt_time_hh 60 3 = "00:01:00.000".toList := by
  have hm : fmtM 60 = 1 := by norm_num [fmtM]
  have hn : fmtN 60 3 = 0 := by
    norm_num [fmtN, hm, roundHalfEven]
  rw [fmt_time_hh_eq, hm, hn]
  decide

theorem fmt_eval_neg5 : fmt_time_hh (-5) 3 = "00:00:00.000".toList := by
  have hm : fmtM (-5) = 0 := by norm_num [fmtM]
  have hn : fmtN (-5) 3 = 0 := by
    norm_num [fmtN, hm, roundHalfEven]
  rw [fmt_time_hh_eq, hm, hn]
  decide

theorem parse_eval_sixty :
    parse_timecode_to_seconds "00:01:00.00".toList = some 60 := by
  unfold parse_timecode_to_seconds
  dsimp only
  rw [show pyStrip "00:01:00.00".toList = "00:01:00.00".toList from by decide]
  rw [show ("00:01:00.00".toList).isEmpty = false from rfl]
  simp only [Bool.false_eq_true, if_false]
  rw [show splitChar ':' "00:01:00.00".toList =
    [['0','0'], ['0','1'], "00.00".toList] from by decide]
  dsimp only
  rw [show pyInt? ['0','0'] = some 0 from by decide,
      show pyInt? ['0','1'] = some 1 from by decide]
  have hf : pyFloat? "00.00".toList = some ((0 : ℚ)) := by
    rw [show "00.00".toList = renderFixed 0 2 from by decide, pyFloat?_renderFixed]
    norm_num
  rw [hf]
  dsimp only
  norm_num

theorem parse_eval_neg5 :
    parse_timecode_to_seconds "-5".toList = some (-5) := by
  unfold parse_timecode_to_seconds
  dsimp only
  rw [show pyStrip "-5".toList = "-5".toList from by decide]
  rw [show ("-5".toList).isEmpty = false from rfl]
  simp only [Bool.false_eq_true, if_false]
  rw [show splitChar ':' "-5".toList = ["-5".toList] from by decide]
  dsimp only
  rw [show "-5".toList = '-' :: ['5'] from rfl, pyFloatNoStrip?_cons,
      if_neg (by decide), if_pos rfl]
  rw [pyFloatBody?_digits (by simp) (by decide)]
  rw [show digitsToNat ['5'] = 5 from by decide]
  simp only [Option.map_some']
  norm_num

theorem reprFloat_125 : reprFloat (25/2) = "12.5".toList := by
  unfold reprFloat
  rw [if_neg (by norm_num)]
  unfold reprFloatNN
  rw [if_neg (by norm_num), if_neg (by
    intro h
    have := h.2
    norm_num at this)]
  have hd : decExp? (25/2) = some 1 := by
    unfold decExp?
    have h18 : decExpGo ((25:ℚ)/2) 18 0 =
        if (((25:ℚ)/2) * 10 ^ 0).den = 1 then some 0
        else decExpGo ((25:ℚ)/2) 17 1 := rfl
    have h17 : decExpGo ((25:ℚ)/2) 17 1 =
        if (((25:ℚ)/2) * 10 ^ 1).den = 1 then some 1
        else decExpGo ((25:ℚ)/2) 16 2 := rfl
    rw [h18, if_neg (by norm_num), h17, if_pos (by norm_num)]
  rw [hd]
  dsimp only
  have h125 : (((25:ℚ)/2) * 10 ^ (0 + 1)).num.toNat = 125 := by
    have : (((25:ℚ)/2) * 10 ^ (0 + 1)).num = 125 := by norm_num
    rw [this]
    rfl
  rw [h125]
  decide

theorem reprFloat_epoch : reprFloat 1700000000 = "1700000000.0".toList := by
  unfold reprFloat
  rw [if_neg (by norm_num)]
  unfold reprFloatNN
  rw [if_neg (by norm_num), if_neg (by
    intro h
    have := h.2
    norm_num at this)]
  have hd : decExp? 1700000000 = some 0 := by
    unfold decExp?
    have h18 : decExpGo (1700000000:ℚ) 18 0 =
        if ((1700000000:ℚ) * 10 ^ 0).den = 1 then some 0
        else decExpGo (1700000000:ℚ) 17 1 := rfl
    rw [h18, if_pos (by norm_num)]
  rw [hd]
  dsimp only
  have hnum : ((1700000000:ℚ)).num = 1700000000 := by norm_num
  have htn : ((1700000000:ℚ)).num.toNat = 1700000000 := by
    rw [hnum]
    rfl
  rw [htn]
  decide

/-! ### Concrete rebuild and logging evaluations -/


theorem rebuild_row_neg5 :
    rebuild_event_row? [("timecode", PyVal.str "-5".toList),
        ("time_sec", PyVal.float (25/2)), ("logged_at_epoch", PyVal.float 0)] =
      some [("audio_file", PyVal.str []),
        ("time_sec", PyVal.float (-5)),
        ("timecode", PyVal.str "00:00:00.000".toList),
        ("label", PyVal.str []),
        ("note", PyVal.str []),
        ("logged_at_epoch", PyVal.float 0)] := by
  unfold rebuild_event_row?
  dsimp only
  rw [show pyStrip (strOr (rGetD [("timecode", PyVal.str "-5".toList),
      ("time_sec", PyVal.float (25/2)), ("logged_at_epoch", PyVal.float 0)]
      "timecode" (PyVal.str []))) = "-5".toList from by decide]
  rw [parse_eval_neg5]
  dsimp only
  rw [show epochCoerce? (rGetD [("timecode", PyVal.str "-5".toList),
      ("time_sec", PyVal.float (25/2)), ("logged_at_epoch", PyVal.float 0)]
      "logged_at_epoch" (PyVal.float 0)) = some 0 from rfl]
  simp only [Option.map_some']
  rw [fmt_eval_neg5]
  rw [show strOr (rGetD [("timecode", PyVal.str "-5".toList),
      ("time_sec", PyVal.float (25/2)), ("logged_at_epoch", PyVal.float 0)]
      "audio_file" (PyVal.str [])) = [] from by decide,
    show strOr (rGetD [("timecode", PyVal.str "-5".toList),
      ("time_sec", PyVal.float (25/2)), ("logged_at_epoch", PyVal.float 0)]
      "label" (PyVal.str [])) = [] from by decide,
    show strOr (rGetD [("timecode", PyVal.str "-5".toList),
      ("time_sec", PyVal.float (25/2)), ("logged_at_epoch", PyVal.float 0)]
      "note" (PyVal.str [])) = [] from by decide]


theorem rebuild_row_sixty :
    rebuild_event_row? [("timecode", PyVal.str "00:01:00.00".toList),
        ("time_sec", PyVal.float (25/2)), ("logged_at_epoch", PyVal.float 0)] =
      some [("audio_file", PyVal.str []),
        ("time_sec", PyVal.float 60),
        ("timecode", PyVal.str "00:01:00.000".toList),
        ("label", PyVal.str []),
        ("note", PyVal.str []),
        ("logged_at_epoch", PyVal.float 0)] := by
  unfold rebuild_event_row?
  dsimp only
  rw [show pyStrip (strOr (rGetD [("timecode", PyVal.str "00:01:00.00".toList),
      ("time_sec", PyVal.float (25/2)), ("logged_at_epoch", PyVal.float 0)]
      "timecode" (PyVal.str []))) = "00:01:00.00".toList from by decide]
  rw [parse_eval_sixty]
  dsimp only
  rw [show epochCoerce? (rGetD [("timecode", PyVal.str "00:01:00.00".toList),
      ("time_sec", PyVal.float (25/2)), ("logged_at_epoch", PyVal.float 0)]
      "logged_at_epoch" (PyVal.float 0)) = some 0 from rfl]
  simp only [Option.map_some']
  rw [fmt_eval_sixty]
  rw [show strOr (rGetD [("timecode", PyVal.str "00:01:00.00".toList),
      ("time_sec", PyVal.float (25/2)), ("logged_at_epoch", PyVal.float 0)]
      "audio_file" (PyVal.str [])) = [] from by decide,
    show strOr (rGetD [("timecode", PyVal.str "00:01:00.00".toList),
      ("time_sec", PyVal.float (25/2)), ("logged_at_epoch", PyVal.float 0)]
      "label" (PyVal.str [])) = [] from by decide,
    show strOr (rGetD [("timecode", PyVal.str "00:01:00.00".toList),
      ("time_sec", PyVal.float (25/2)), ("logged_at_epoch", PyVal.float 0)]
      "note" (PyVal.str [])) = [] from by decide]


theorem rowCells_scenario :
    rowCells (log_event_entry "a.mp3".toList (25/2) "Pop".toList [] 1700000000) =
      ["a.mp3".toList, "12.5".toList, "00:00:12.500".toList, "Pop".toList, [],
        "1700000000.0".toList] := by
  unfold rowCells FIELDNAMES log_event_entry
  simp only [List.map_cons, List.map_nil]
  rw [show dget [("audio_file", PyVal.str "a.mp3".toList),
      ("time_sec", PyVal.float (25/2)),
      ("timecode", PyVal.str (fmt_time_hh (25/2) 3)),
      ("label", PyVal.str "Pop".toList),
      ("note", PyVal.str (pyStrip [])),
      ("logged_at_epoch", PyVal.float 1700000000)] "audio_file" =
      some (PyVal.str "a.mp3".toList) from rfl]
  rw [show dget [("audio_file", PyVal.str "a.mp3".toList),
      ("time_sec", PyVal.float (25/2)),
      ("timecode", PyVal.str (fmt_time_hh (25/2) 3)),
      ("label", PyVal.str "Pop".toList),
      ("note", PyVal.str (pyStrip [])),
      ("logged_at_epoch", PyVal.float 1700000000)] "time_sec" =
      some (PyVal.float (25/2)) from rfl]
  rw [show dget [("audio_file", PyVal.str "a.mp3".toList),
      ("time_sec", PyVal.float (25/2)),
      ("timecode", PyVal.str (fmt_time_hh (25/2) 3)),
      ("label", PyVal.str "Pop".toList),
      ("note", PyVal.str (pyStrip [])),
      ("logged_at_epoch", PyVal.float 1700000000)] "timecode" =
      some (PyVal.str (fmt_time_hh (25/2) 3)) from rfl]
  rw [show dget [("audio_file", PyVal.str "a.mp3".toList),
      ("time_sec", PyVal.float (25/2)),
      ("timecode", PyVal.str (fmt_time_hh (25/2) 3)),
      ("label", PyVal.str "Pop".toList),
      ("note", PyVal.str (pyStrip [])),
      ("logged_at_epoch", PyVal.float 1700000000)] "label" =
      some (PyVal.str "Pop".toList) from rfl]
  rw [show dget [("audio_file", PyVal.str "a.mp3".toList),
      ("time_sec", PyVal.float (25/2)),
      ("timecode", PyVal.str (fmt_time_hh (25/2) 3)),
      ("label", PyVal.str "Pop".toList),
      ("note", PyVal.str (pyStrip [])),
      ("logged_at_epoch", PyVal.float 1700000000)] "note" =
      some (PyVal.str (pyStrip [])) from rfl]
  rw [show dget [("audio_file", PyVal.str "a.mp3".toList),
      ("time_sec", PyVal.float (25/2)),
      ("timecode", PyVal.str (fmt_time_hh (25/2) 3)),
      ("label", PyVal.str "Pop".toList),
      ("note", PyVal.str (pyStrip [])),
      ("logged_at_epoch", PyVal.float 1700000000)] "logged_at_epoch" =
      some (PyVal.float 1700000000) from rfl]
  unfold csvCellStr
  dsimp only
  rw [reprFloat_125, reprFloat_epoch, fmt_eval_125]
  rfl

/-- C4 counterexample.  The claim says the rebuilt `time_sec` is clamped to
a non-negative real; editing a timecode to `"-5"` parses to `-5.0` and the
code stores it unclamped (only the rendered `timecode` string is clamped, by
the formatter). -/
theorem C4_time_sec_not_clamped :
    ∃ e, rebuild_event_row? [("timecode", PyVal.str "-5".toList),
        ("time_sec", PyVal.float (25/2)), ("logged_at_epoch", PyVal.float 0)] =
          some e ∧
      dget e "time_sec" = some (PyVal.float (-5)) ∧ ¬(0 ≤ (-5 : ℚ)) :=
  ⟨_, rebuild_row_neg5, rfl, by norm_num⟩

/-- C4 (amended).  Bulk-edit replacement: every rebuilt row re-derives its
`timecode` from its re-parsed `time_sec` via the formatter (which clamps
negatives to zero in the rendering only — the stored `time_sec` is the
parsed value unchanged and may be negative); a row whose edited timecode is
unparsable is kept, with `time_sec` coerced from its previously stored
value; and editing a timecode from `"00:00:12.50"` to `"00:01:00.00"` yields
`time_sec == 60.0` for that row. -/
theorem C4_bulk_edit_replacement :
    (∀ r e, rebuild_event_row? r = some e →
      ∃ q : ℚ, dget e "time_sec" = some (PyVal.float q) ∧
        dget e "timecode" = some (PyVal.str (fmt_time_hh q 3)) ∧
        (parse_timecode_to_seconds (pyStrip (strOr (rGetD r "timecode"
            (PyVal.str [])))) = some q ∨
          (parse_timecode_to_seconds (pyStrip (strOr (rGetD r "timecode"
            (PyVal.str [])))) = Option.none ∧
           q = floatCoerceOr0 (rGetD r "time_sec" (PyVal.float 0))))) ∧
    (∃ e, rebuild_event_row? [("timecode", PyVal.str "00:01:00.00".toList),
        ("time_sec", PyVal.float (25/2)), ("logged_at_epoch", PyVal.float 0)] =
          some e ∧
      dget e "time_sec" = some (PyVal.float 60)) := by
  constructor
  · intro r e h
    unfold rebuild_event_row? at h
    dsimp only at h
    cases hp : parse_timecode_to_seconds (pyStrip (strOr (rGetD r "timecode"
        (PyVal.str [])))) with
    | some s =>
      rw [hp] at h
      dsimp only at h
      cases hep : epochCoerce? (rGetD r "logged_at_epoch" (PyVal.float 0)) with
      | none =>
        rw [hep] at h
        cases h
      | some ep =>
        rw [hep] at h
        simp only [Option.map_some', Option.some.injEq] at h
        subst h
        exact ⟨s, rfl, rfl, Or.inl rfl⟩
    | none =>
      rw [hp] at h
      dsimp only at h
      cases hep : epochCoerce? (rGetD r "logged_at_epoch" (PyVal.float 0)) with
      | none =>
        rw [hep] at h
        cases h
      | some ep =>
        rw [hep] at h
        simp only [Option.map_some', Option.some.injEq] at h
        subst h
        exact ⟨_, rfl, rfl, Or.inr ⟨rfl, rfl⟩⟩
  · exact ⟨_, rebuild_row_sixty, rfl⟩

/-- Witness for C4: the general rebuilt-row property at the concrete edited
row `"00:01:00.00"` and its rebuilt event. -/
theorem C4_bulk_edit_replacement_witness :
    ∃ q : ℚ,
      dget [("audio_file", PyVal.str []), ("time_sec", PyVal.float 60),
        ("timecode", PyVal.str "00:01:00.000".toList), ("label", PyVal.str []),
        ("note", PyVal.str []), ("logged_at_epoch", PyVal.float 0)] "time_sec" =
          some (PyVal.float q) ∧
      dget [("audio_file", PyVal.str []), ("time_sec", PyVal.float 60),
        ("timecode", PyVal.str "00:01:00.000".toList), ("label", PyVal.str []),
        ("note", PyVal.str []), ("logged_at_epoch", PyVal.float 0)] "timecode" =
          some (PyVal.str (fmt_time_hh q 3)) ∧
      (parse_timecode_to_seconds (pyStrip (strOr (rGetD
          [("timecode", PyVal.str "00:01:00.00".toList),
           ("time_sec", PyVal.float (25/2)), ("logged_at_epoch", PyVal.float 0)]
          "timecode" (PyVal.str [])))) = some q ∨
        (parse_timecode_to_seconds (pyStrip (strOr (rGetD
          [("timecode", PyVal.str "00:01:00.00".toList),
           ("time_sec", PyVal.float (25/2)), ("logged_at_epoch", PyVal.float 0)]
          "timecode" (PyVal.str [])))) = Option.none ∧
         q = floatCoerceOr0 (rGetD
          [("timecode", PyVal.str "00:01:00.00".toList),
           ("time_sec", PyVal.float (25/2)), ("logged_at_epoch", PyVal.float 0)]
          "time_sec" (PyVal.float 0)))) :=
  C4_bulk_edit_replacement.1 _ _ rebuild_row_sixty

theorem csvRecords_single (cells : List (List Char)) (hne : cells ≠ []) :
    csvRecords (csvLine cells) = [cells] := by
  have h := csvRecords_line cells [] hne
  rw [List.append_nil] at h
  rw [h, show csvRecords [] = [] from rfl]

/-- C5 counterexample.  The handler renders the timecode of a 12.5-second
event with the formatter's three decimals, `"00:00:12.500"`, not the
two-decimal `"00:00:12.50"` the claim states. -/
theorem C5_timecode_three_decimals :
    dget (log_event_entry "a.mp3".toList (25/2) "Pop".toList [] 1700000000)
        "timecode" = some (PyVal.str "00:00:12.500".toList) ∧
    "00:00:12.500".toList ≠ "00:00:12.50".toList := by
  constructor
  · rw [show dget (log_event_entry "a.mp3".toList (25/2) "Pop".toList []
        1700000000) "timecode" = some (PyVal.str (fmt_time_hh (25/2) 3)) from rfl,
      fmt_eval_125]
  · decide

/-- C5 (amended).  Logging scenario: after the handler records position 12.5
and appends a `"Pop"` event with empty note at epoch 1700000000, the CSV
export parses as the header record followed by exactly the data record
`a.mp3, 12.5, 00:00:12.500, Pop, , 1700000000.0` — the persisted timecode
rendered for 12.5 seconds is `"00:00:12.500"` (three decimals); the handler
also sets the resume hint to 12.5 in that file. -/
theorem C5_logging_scenario :
    csvRecords (events_to_csv_bytes (clicked_label_update [] "a.mp3".toList
        (25/2) "Pop".toList [] 1700000000).1) =
      [["audio_file".toList, "time_sec".toList, "timecode".toList,
        "label".toList, "note".toList, "logged_at_epoch".toList],
       ["a.mp3".toList, "12.5".toList, "00:00:12.500".toList, "Pop".toList, [],
        "1700000000.0".toList]] ∧
    (clicked_label_update [] "a.mp3".toList (25/2) "Pop".toList []
        1700000000).2 =
      PyVal.dict [("audio_file", PyVal.str "a.mp3".toList),
        ("time_sec", PyVal.float (25/2))] := by
  constructor
  · have h1 : (clicked_label_update [] "a.mp3".toList (25/2) "Pop".toList []
        1700000000).1 =
        [log_event_entry "a.mp3".toList (25/2) "Pop".toList [] 1700000000] := rfl
    rw [h1]
    unfold events_to_csv_bytes
    simp only [List.map_cons, List.map_nil, List.flatten_cons, List.flatten_nil,
      List.append_nil]
    rw [csvRecords_line _ _ (by simp [FIELDNAMES]),
        csvRecords_single _ (by rw [rowCells_scenario]; simp),
        rowCells_scenario]
    rfl
  · rfl

end Audiocheck
